import Mathlib

/-!
Verification development for the SNES ROM handling library (rom.py, util.py).

The byte buffer of the ROM (a Python bytearray) is modelled as a length
together with a contents function; reads and writes translate the slicing
and struct packing semantics of the source.  Python integers are modelled
as Int where they can go negative and as Nat where the source keeps them
non-negative.  Python exceptions are modelled with Except / error codes.
-/

set_option maxRecDepth 8000

/-- Python exceptions raised by the source, by kind:
AssertionError, NotImplementedError, TypeError, struct.error, ValueError. -/
inductive RomErr where
  | assertion : RomErr
  | notImplemented : RomErr
  | typeError : RomErr
  | structError : RomErr
  | valueError : RomErr
deriving DecidableEq, Repr

/-- rom.py: enumeration RomType (values of the internal header makeup bits). -/
inductive RomType where
  | LOROM : RomType
  | HIROM : RomType
  | EXLOROM : RomType
  | EXHIROM : RomType
deriving DecidableEq, Repr

deriving instance DecidableEq for Except

/-- A Python bytearray: a length and the byte at each index below the length. -/
structure ByteBuf where
  size : Nat
  data : Nat → Nat

/-- Python slice assignment b[addr:addr+len(bs)] = bs.  Slices clamp to the
buffer, so an out of range start appends at the end. -/
def spliceAt (b : ByteBuf) (addr : Nat) (bs : List Nat) : ByteBuf :=
  let lo := min addr b.size
  let hi := min (addr + bs.length) b.size
  { size := lo + bs.length + (b.size - hi),
    data := fun k =>
      if k < lo then b.data k
      else if k < lo + bs.length then bs.getD (k - lo) 0
      else b.data (k - (lo + bs.length) + hi) }

/-- bytearray.extend with a list of zero bytes. -/
def extendZeros (b : ByteBuf) (pad : Nat) : ByteBuf :=
  { size := b.size + pad,
    data := fun k => if k < b.size then b.data k else 0 }

/-- rom.py RomHandler._read_single.  struct.unpack requires the extracted
slice to hold exactly the struct size, and slicing clamps, so success needs
addr + size within the buffer; on width 3 the source calls
bytearray.append with a one byte bytes object instead of an integer, which
raises TypeError before anything is unpacked. -/
def read_single (b : ByteBuf) (addr size : Nat) : Except RomErr Nat :=
  if size = 1 then
    if addr + 1 ≤ b.size then .ok (b.data addr) else .error .structError
  else if size = 2 then
    if addr + 2 ≤ b.size then
      .ok (b.data addr + 0x100 * b.data (addr + 1))
    else .error .structError
  else if size = 3 then
    .error .typeError
  else if size = 4 then
    if addr + 4 ≤ b.size then
      .ok (b.data addr + 0x100 * b.data (addr + 1) + 0x10000 * b.data (addr + 2) +
        0x1000000 * b.data (addr + 3))
    else .error .structError
  else .error .notImplemented

/-- rom.py RomHandler.read with a string encoding: one _read_single per
character, each advancing the address by its own width.  int(code) raises
ValueError on a character that is not a digit. -/
def read_string_encoding (b : ByteBuf) (addr : Nat) :
    List Char → Except RomErr (List Nat)
  | [] => .ok []
  | c :: rest =>
    if c.isDigit then
      match read_single b addr (c.toNat - 48) with
      | .error e => .error e
      | .ok v =>
        match read_string_encoding b (addr + (c.toNat - 48)) rest with
        | .error e => .error e
        | .ok vs => .ok (v :: vs)
    else .error .valueError

/-- The little endian byte expansion used by struct.pack with format L. -/
def le_bytes4 (v : Nat) : List Nat :=
  [v % 0x100, v / 0x100 % 0x100, v / 0x10000 % 0x100, v / 0x1000000 % 0x100]

/-- rom.py RomHandler._write_single: dispatch on the width, pack the value
little endian (struct.pack rejects values out of range for the format),
truncate the packed bytes to the width, and slice assign them into the
buffer.  Returns the buffer state together with the exception if one was
raised; the buffer is untouched when packing fails. -/
def write_single (b : ByteBuf) (value addr size : Nat) : ByteBuf × Option RomErr :=
  if size = 1 then
    if value < 0x100 then (spliceAt b addr [value], none) else (b, some .structError)
  else if size = 2 then
    if value < 0x10000 then
      (spliceAt b addr [value % 0x100, value / 0x100 % 0x100], none)
    else (b, some .structError)
  else if size = 3 then
    if value < 0x100000000 then
      (spliceAt b addr ((le_bytes4 value).take 3), none)
    else (b, some .structError)
  else if size = 4 then
    if value < 0x100000000 then
      (spliceAt b addr (le_bytes4 value), none)
    else (b, some .structError)
  else (b, some .notImplemented)

/-- The loop of rom.py RomHandler.write over zip(values, encoding): each
value is written with the width named by its code character, the address
advancing by that width; an exception stops the loop with the earlier
writes already applied to the buffer. -/
def write_loop (b : ByteBuf) (addr : Nat) :
    List Nat → List Char → ByteBuf × Option RomErr
  | [], _ => (b, none)
  | _, [] => (b, none)
  | v :: vs, c :: cs =>
    if c.isDigit then
      match write_single b v addr (c.toNat - 48) with
      | (b2, none) => write_loop b2 (addr + (c.toNat - 48)) vs cs
      | (b2, some e) => (b2, some e)
    else (b, some .valueError)

/-- rom.py RomHandler.write, multi value branch (string encoding with a list
of values): the lengths must match, then the loop runs. -/
def write_multi (b : ByteBuf) (addr : Nat) (values : List Nat) (encoding : List Char) :
    ByteBuf × Option RomErr :=
  if values.length = encoding.length then write_loop b addr values encoding
  else (b, some .assertion)

/-- Count of printable ASCII bytes (0x20 to 0x7E), as in the title heuristic. -/
def printable_count (bs : List Nat) : Nat :=
  bs.countP (fun x => decide (0x20 ≤ x) && decide (x ≤ 0x7E))

/-- rom.py RomHandler.__init__, first detection phase: the checksum
complement test at 0x7FDE, then at 0xFFDE, then the printable title
heuristic (LoROM wins ties). -/
def detect_checksum_or_title (b : ByteBuf) : Except RomErr RomType :=
  match read_single b 0x7FDE 2 with
  | .error e => .error e
  | .ok lo_check =>
    match read_single b 0x7FDC 2 with
    | .error e => .error e
    | .ok lo_prev =>
      if lo_check + lo_prev = 0xFFFF then .ok RomType.LOROM
      else
        match read_single b 0xFFDE 2 with
        | .error e => .error e
        | .ok hi_check =>
          match read_single b 0xFFDC 2 with
          | .error e => .error e
          | .ok hi_prev =>
            if hi_check + hi_prev = 0xFFFF then .ok RomType.HIROM
            else
              match read_string_encoding b 0x7FC0 (List.replicate 21 '1') with
              | .error e => .error e
              | .ok lo_title =>
                match read_string_encoding b 0xFFC0 (List.replicate 21 '1') with
                | .error e => .error e
                | .ok hi_title =>
                  if printable_count hi_title ≤ printable_count lo_title then
                    .ok RomType.LOROM
                  else .ok RomType.HIROM

/-- rom.py RomHandler.__init__, second detection phase: read the makeup byte
at offset 0x15 of the internal header of the chosen layout and confirm or
promote the layout; codes 0x20 and 0x30 keep LoROM, 0x32 promotes to
ExLoROM, 0x21 and 0x31 keep HiROM, 0x35 promotes to ExHiROM, 0x23 is
accepted without reclassification, and any other code raises. -/
def refine_makeup (b : ByteBuf) (t0 : RomType) : Except RomErr RomType :=
  let base : Nat := match t0 with
    | RomType.LOROM | RomType.EXLOROM => 0x7FC0
    | RomType.HIROM | RomType.EXHIROM => 0xFFC0
  match read_single b (base + 0x15) 1 with
  | .error e => .error e
  | .ok makeup =>
    match t0 with
    | RomType.LOROM =>
      if makeup = 0x20 ∨ makeup = 0x30 then .ok RomType.LOROM
      else if makeup = 0x32 then .ok RomType.EXLOROM
      else if makeup = 0x23 then .ok RomType.LOROM
      else .error .assertion
    | RomType.HIROM =>
      if makeup = 0x21 ∨ makeup = 0x31 then .ok RomType.HIROM
      else if makeup = 0x35 then .ok RomType.EXHIROM
      else if makeup = 0x23 then .ok RomType.HIROM
      else .error .assertion
    | t => .ok t

/-- rom.py RomHandler.__init__, layout detection on the header-stripped
contents: checksum test, title heuristic fallback, makeup refinement. -/
def detect_type (b : ByteBuf) : Except RomErr RomType :=
  match detect_checksum_or_title b with
  | .error e => .error e
  | .ok t0 => refine_makeup b t0

/-- rom.py RomHandler.__init__: header inference from the file size
(multiple of 0x8000 means headerless, remainder 0x200 means a 512 byte
header to strip, anything else is an AssertionError), then layout
detection.  Returns the contents and the detected layout. -/
def rom_init (file : ByteBuf) : Except RomErr (ByteBuf × RomType) :=
  if file.size % 0x8000 = 0 then
    match detect_type file with
    | .error e => .error e
    | .ok t => .ok (file, t)
  else if file.size % 0x8000 = 0x200 then
    let contents : ByteBuf := { size := file.size - 0x200, data := fun k => file.data (k + 0x200) }
    match detect_type contents with
    | .error e => .error e
    | .ok t => .ok (contents, t)
  else .error .assertion

/-- The branch structure of convert_to_snes_address on the non-negative
address n (Python floor division and modulus agree with Nat division and
modulus on non-negative operands).  The ExLoROM middle branch can go
negative, so the result type is Int. -/
def convert_to_snes_core (t : RomType) (n : Nat) : Except RomErr Int :=
  match t with
  | RomType.LOROM =>
    .ok (((n / 0x8000 + 0x80) * 0x10000 + (n % 0x8000 + 0x8000) : Nat) : Int)
  | RomType.HIROM => .ok ((n : Int) + 0x800000)
  | RomType.EXLOROM =>
    if n / 0x8000 < 0x40 then
      .ok (((n / 0x8000 + 0x80) * 0x10000 + (n % 0x8000 + 0x8000) : Nat) : Int)
    else if n / 0x8000 < 0x7F then
      .ok ((((n / 0x8000 : Nat) : Int) - 0x80) * 0x10000 + (((n % 0x8000 : Nat) : Int) + 0x8000))
    else .error .assertion
  | RomType.EXHIROM =>
    if n < 0x400000 then .ok ((n : Int) + 0xC00000)
    else if n < 0x7E0000 then .ok (n : Int)
    else if n % 0x10000 > 0x8000 then .ok ((n : Int) - 0x400000)
    else .error .assertion

/-- rom.py RomHandler.convert_to_snes_address: range check against the ROM
size, then the per layout formula. -/
def convert_to_snes_address (t : RomType) (rom_size : Nat) (addr : Int) :
    Except RomErr Int :=
  if addr > (rom_size : Int) ∨ addr < 0 then .error .assertion
  else convert_to_snes_core t addr.toNat

/-- The MAD-1 address decoder normalization shared by the LoROM and ExLoROM
branches of convert_to_pc_address: in banks 0x40 to 0x6F a low offset is
moved to the upper half. -/
def lorom_norm_offset (a : Nat) : Nat :=
  if 0x40 ≤ a / 0x10000 ∧ a / 0x10000 < 0x70 ∧ a % 0x10000 < 0x8000 then
    a % 0x10000 + 0x8000
  else a % 0x10000

/-- The final bound check of convert_to_pc_address: the computed PC address
must not exceed the ROM size. -/
def check_rom_size (rom_size pc : Nat) : Except RomErr Nat :=
  if pc > rom_size then .error .assertion else .ok pc

/-- The branch structure of convert_to_pc_address on the non-negative
address a, with bank a / 0x10000 and offset a % 0x10000; every branch
formula is non-negative under its own guard, so the result is a Nat. -/
def convert_to_pc_core (t : RomType) (rom_size : Nat) (a : Nat) : Except RomErr Nat :=
  match t with
  | RomType.LOROM =>
    if lorom_norm_offset a < 0x8000 ∨ a / 0x10000 = 0x7E ∨ a / 0x10000 = 0x7F then
      .error .assertion
    else
      check_rom_size rom_size
        ((a / 0x10000 % 0x80) * 0x8000 + (lorom_norm_offset a - 0x8000))
  | RomType.HIROM =>
    if (a / 0x10000 = 0x7E ∨ a / 0x10000 = 0x7F) ∨
        (a / 0x10000 < 0xC0 ∧ a % 0x10000 < 0x8000) then
      .error .assertion
    else check_rom_size rom_size ((a / 0x10000 / 0x40) * 0x10000 + a % 0x10000)
  | RomType.EXLOROM =>
    if 0x80 ≤ a / 0x10000 ∧ 0x8000 ≤ lorom_norm_offset a then
      check_rom_size rom_size
        ((a / 0x10000 - 0x80) * 0x8000 + (lorom_norm_offset a - 0x8000))
    else if ¬(a / 0x10000 = 0x7E ∨ a / 0x10000 = 0x7F) ∧ 0x8000 ≤ lorom_norm_offset a then
      check_rom_size rom_size
        ((a / 0x10000 + 0x80) * 0x8000 + (lorom_norm_offset a - 0x8000))
    else .error .assertion
  | RomType.EXHIROM =>
    if 0xC0 ≤ a / 0x10000 then
      check_rom_size rom_size ((a / 0x10000 - 0xC0) * 0x10000 + a % 0x10000)
    else if 0x40 ≤ a / 0x10000 ∧ a / 0x10000 < 0x7E then
      check_rom_size rom_size ((a / 0x10000) * 0x10000 + a % 0x10000)
    else if (a / 0x10000 = 0x3E ∨ a / 0x10000 = 0x3F) ∧ a % 0x10000 > 0x8000 then
      check_rom_size rom_size ((a / 0x10000 + 0x40) * 0x10000 + a % 0x10000)
    else if 0x80 ≤ a / 0x10000 ∧ a / 0x10000 < 0xC0 ∧ 0x8000 ≤ a % 0x10000 then
      check_rom_size rom_size ((a / 0x10000 - 0x80) * 0x10000 + a % 0x10000)
    else if a / 0x10000 < 0x3E ∧ 0x8000 ≤ a % 0x10000 then
      check_rom_size rom_size ((a / 0x10000 + 0x40) * 0x10000 + a % 0x10000)
    else .error .assertion

/-- rom.py RomHandler.convert_to_pc_address: 24 bit range check, then the
per layout branches, then the ROM size bound check. -/
def convert_to_pc_address (t : RomType) (rom_size : Nat) (addr : Int) :
    Except RomErr Nat :=
  if addr > 0xFFFFFF ∨ addr < 0 then .error .assertion
  else convert_to_pc_core t rom_size addr.toNat

/-- Converting a PC address to the SNES address space and back, as in the
round trip property of the spec. -/
def round_trip (t : RomType) (rom_size : Nat) (p : Nat) : Except RomErr Nat :=
  match convert_to_snes_address t rom_size (p : Int) with
  | .error e => .error e
  | .ok snes => convert_to_pc_address t rom_size snes

/-- The state of a RomHandler needed by expand: the contents buffer, the
_rom_size attribute recorded at construction, and the detected layout. -/
structure RomHandler where
  contents : ByteBuf
  romSize : Nat
  rtype : RomType

/-- The internal header base used by _read_from_internal_header and
_write_to_internal_header. -/
def internal_header_base : RomType → Nat
  | RomType.LOROM | RomType.EXLOROM => 0x7FC0
  | RomType.HIROM | RomType.EXHIROM => 0xFFC0

/-- Python int.bit_length. -/
def bit_length (n : Nat) : Nat := if n = 0 then 0 else Nat.log2 n + 1

/-- rom.py RomHandler.expand: the target in megabits must be a multiple of 4
between 4 and 32 (else NotImplementedError) and must exceed the current
size (else AssertionError; the source compares size against
rom_size / 0x20000 computed exactly), then the size code byte is written at
offset 0x17 of the internal header and the contents are padded with zeros
up to size * 0x20000 bytes.  The _rom_size attribute is not updated. -/
def expand (rom : RomHandler) (size : Nat) : Except RomErr RomHandler :=
  if size < 4 ∨ 32 < size ∨ size % 4 ≠ 0 then .error .notImplemented
  else if size * 0x20000 ≤ rom.romSize then .error .assertion
  else
    match write_single rom.contents (0x07 + bit_length (size - 1))
        (internal_header_base rom.rtype + 0x17) 1 with
    | (_, some e) => .error e
    | (c2, none) =>
      .ok { rom with contents := extendZeros c2 (size * 0x20000 - rom.romSize) }

/-! util.py definitions -/

/-- util.py get_bit. -/
def get_bit (byteval idx : Nat) : Bool := (byteval &&& (1 <<< idx)) != 0

/-- The numpy uint8 cast used by the tile codec arrays. -/
def u8 (x : Nat) : Nat := x % 256

/-- Bit k of x, as extracted by np.unpackbits (most significant bit first
within a byte). -/
def bitAt (x k : Nat) : Nat := x / 2 ^ k % 2

/-- util.py convert_tile_from_bitplanes, the 8 by 8 work array after the
four strided slice assignments: column 4 holds raw_tile[31:15:-2], column 5
holds raw_tile[30:14:-2], column 6 holds raw_tile[15::-2], column 7 holds
raw_tile[14::-2]; columns 0 to 3 stay zero. -/
def ctfb_tile (raw : Nat → Nat) (r c : Nat) : Nat :=
  if c = 4 then u8 (raw (31 - 2 * r))
  else if c = 5 then u8 (raw (30 - 2 * r))
  else if c = 6 then u8 (raw (15 - 2 * r))
  else if c = 7 then u8 (raw (14 - 2 * r))
  else 0

/-- util.py convert_tile_from_bitplanes, the combination of
np.unpackbits(axis=2) and np.packbits(axis=1): entry (r, b) packs bit
(7 - b) of the eight bytes of row r, with column c weighted by 2^(7-c). -/
def ctfb_fixed_bits (raw : Nat → Nat) (r b : Nat) : Nat :=
  bitAt (ctfb_tile raw r 0) (7 - b) * 128 + bitAt (ctfb_tile raw r 1) (7 - b) * 64 +
  bitAt (ctfb_tile raw r 2) (7 - b) * 32 + bitAt (ctfb_tile raw r 3) (7 - b) * 16 +
  bitAt (ctfb_tile raw r 4) (7 - b) * 8 + bitAt (ctfb_tile raw r 5) (7 - b) * 4 +
  bitAt (ctfb_tile raw r 6) (7 - b) * 2 + bitAt (ctfb_tile raw r 7) (7 - b) * 1

/-- util.py convert_tile_from_bitplanes: after swapaxes(0, 1) and fliplr the
returned array reads entry (i, j) from fixed_bits at row 7 - j, column i. -/
def convert_tile_from_bitplanes (raw : Nat → Nat) (i j : Nat) : Nat :=
  ctfb_fixed_bits raw (7 - j) i

/-- util.py convert_indexed_tile_to_bitplanes, the 8 by 8 work array after
fliplr, swapaxes, unpackbits(axis=1) and packbits(axis=2): entry (a, k)
packs bit (7 - k) of the uint8 casts of the input grid entries (b, 7 - a),
with b weighted by 2^(7-b). -/
def citb_tile (g : Nat → Nat → Nat) (a k : Nat) : Nat :=
  bitAt (u8 (g 0 (7 - a))) (7 - k) * 128 + bitAt (u8 (g 1 (7 - a))) (7 - k) * 64 +
  bitAt (u8 (g 2 (7 - a))) (7 - k) * 32 + bitAt (u8 (g 3 (7 - a))) (7 - k) * 16 +
  bitAt (u8 (g 4 (7 - a))) (7 - k) * 8 + bitAt (u8 (g 5 (7 - a))) (7 - k) * 4 +
  bitAt (u8 (g 6 (7 - a))) (7 - k) * 2 + bitAt (u8 (g 7 (7 - a))) (7 - k) * 1

/-- util.py convert_indexed_tile_to_bitplanes: np.append of the reversed
ravel of columns 6 to 7 (the low bitplanes) with the reversed ravel of
columns 4 to 5 (the high bitplanes), read out at byte index n. -/
def convert_indexed_tile_to_bitplanes (g : Nat → Nat → Nat) (n : Nat) : Nat :=
  if n < 16 then
    (if n % 2 = 0 then citb_tile g (7 - n / 2) 7 else citb_tile g (7 - n / 2) 6)
  else
    (if n % 2 = 0 then citb_tile g (7 - (n - 16) / 2) 5 else citb_tile g (7 - (n - 16) / 2) 4)

/-- The np.flipud and np.fliplr applied to the decoded tile inside
draw_tile_to_canvas when h_flip or v_flip is set (the first array axis is
the one h_flip reverses). -/
def flip_tile (hf vf : Bool) (t : Nat → Nat → Nat) : Nat → Nat → Nat :=
  let t1 := if hf then fun i j => t (7 - i) j else t
  if vf then fun i j => t1 i (7 - j) else t1

/-- The sparse canvas: a Python dict from integer coordinates to pixel
values, kept as an association list in insertion order. -/
def Canvas : Type := List ((Int × Int) × Nat)

/-- Python dict assignment canvas[key] = value: replace the value in place
if the key exists, else append the binding at the end. -/
def dictWrite : Canvas → (Int × Int) → Nat → Canvas
  | [], k, v => [(k, v)]
  | (k0, v0) :: rest, k, v =>
    if k0 = k then (k0, v) :: rest else (k0, v0) :: dictWrite rest k v

/-- Python dict lookup canvas.get(key). -/
def dictGet : Canvas → (Int × Int) → Option Nat
  | [], _ => none
  | (k0, v0) :: rest, k => if k0 = k then some v0 else dictGet rest k

/-- One row i of the pixel loop of draw_tile_to_canvas: for each column j in
order, a pixel with nonzero value is written to the canvas at
(new_x_offset + i, new_y_offset + j) with value palette_offset + value. -/
def draw_row (palofs : Nat) (tile : Nat → Nat → Nat) (nx ny : Int) (i : Nat)
    (c : Canvas) : Canvas :=
  (List.range 8).foldl
    (fun c2 j =>
      if tile i j ≠ 0 then
        dictWrite c2 (nx + (i : Int), ny + (j : Int)) (palofs + tile i j)
      else c2) c

/-- util.py image_from_raw_data, inner helper draw_tile_to_canvas: decode
the tile, flip it, then run the np.ndenumerate loop (row major) writing the
nonzero pixels. -/
def draw_tile_to_canvas (palofs : Nat) (tile : Nat → Nat → Nat) (nx ny : Int)
    (c : Canvas) : Canvas :=
  (List.range 8).foldl (fun c1 i => draw_row palofs tile nx ny i c1) c

/-- util.py image_from_raw_data: the x offset of a tilemap entry, byte 0
minus 0x100 when bit 0 of byte 1 is set. -/
def tilemap_x (tm : Nat → Nat) : Int :=
  (tm 0 : Int) - (if get_bit (tm 1) 0 then 0x100 else 0)

/-- util.py image_from_raw_data: the y offset of a tilemap entry, the low
seven bits of byte 2 minus 0x80 when bit 7 of byte 2 is set. -/
def tilemap_y (tm : Nat → Nat) : Int :=
  ((tm 2 &&& 0x7F : Nat) : Int) - (if get_bit (tm 2) 7 then 0x80 else 0)

/-- util.py image_from_raw_data, the tile drawn for index offset d: the
decoded tile at index byte 3 plus d, flipped according to bits 6 and 7 of
byte 4 (np.flipud on h_flip, np.fliplr on v_flip). -/
def tilemap_tile (dma : Nat → Nat → Nat) (tm : Nat → Nat) (d : Nat) : Nat → Nat → Nat :=
  flip_tile (get_bit (tm 4) 6) (get_bit (tm 4) 7)
    (convert_tile_from_bitplanes (dma (tm 3 + d)))

/-- util.py image_from_raw_data, body of the loop over tilemaps: decode the
five byte entry (the priority bit 5 of byte 4 is parsed by the source but
never consulted), then draw one small tile, or the four quadrants of a big
tile (index offsets 0, 0x01, 0x10, 0x11 in that order) with the quadrant
screen placement swapped by the flip flags.  The palette offset
(tm 4 << 3) & 0b1110000 is added to every nonzero pixel value. -/
def process_tilemap (dma : Nat → Nat → Nat) (c : Canvas) (tm : Nat → Nat) : Canvas :=
  if tm 1 &&& 0xC2 = 0xC2 then
    draw_tile_to_canvas ((tm 4 <<< 3) &&& 0b1110000) (tilemap_tile dma tm 0x11)
      (tilemap_x tm + (if get_bit (tm 4) 6 then 0 else 8))
      (tilemap_y tm + (if get_bit (tm 4) 7 then 0 else 8))
      (draw_tile_to_canvas ((tm 4 <<< 3) &&& 0b1110000) (tilemap_tile dma tm 0x10)
        (tilemap_x tm + (if get_bit (tm 4) 6 then 8 else 0))
        (tilemap_y tm + (if get_bit (tm 4) 7 then 0 else 8))
        (draw_tile_to_canvas ((tm 4 <<< 3) &&& 0b1110000) (tilemap_tile dma tm 0x01)
          (tilemap_x tm + (if get_bit (tm 4) 6 then 0 else 8))
          (tilemap_y tm + (if get_bit (tm 4) 7 then 8 else 0))
          (draw_tile_to_canvas ((tm 4 <<< 3) &&& 0b1110000) (tilemap_tile dma tm 0)
            (tilemap_x tm + (if get_bit (tm 4) 6 then 8 else 0))
            (tilemap_y tm + (if get_bit (tm 4) 7 then 8 else 0)) c)))
  else
    draw_tile_to_canvas ((tm 4 <<< 3) &&& 0b1110000) (tilemap_tile dma tm 0)
      (tilemap_x tm) (tilemap_y tm) c

/-- util.py image_from_raw_data, the canvas accumulated over all tilemap
entries (the dict the function builds before calling to_image). -/
def image_from_raw_data_canvas (tilemaps : List (Nat → Nat)) (dma : Nat → Nat → Nat) :
    Canvas :=
  tilemaps.foldl (process_tilemap dma) []

/-- The raster produced by to_image: its extent and the pixel at each
coordinate of the raster (a PIL image in mode P, filled with 0). -/
structure PImage where
  width : Int
  height : Int
  pixels : Int × Int → Nat

/-- util.py to_image at the default zoom of 1: an empty canvas yields no
image and origin (0, 0); otherwise the bounding box of the keys is extended
to include the origin, a raster of that extent filled with 0 is created,
and every canvas entry is written at its coordinate shifted by the origin. -/
def to_image (canvas : Canvas) : Option PImage × (Int × Int) :=
  match canvas with
  | [] => (none, (0, 0))
  | e :: rest =>
    let xs := (e :: rest).map (fun q => q.1.1)
    let ys := (e :: rest).map (fun q => q.1.2)
    let x_min := min 0 (xs.foldl min e.1.1)
    let x_max := max 0 (xs.foldl max e.1.1)
    let y_min := min 0 (ys.foldl min e.1.2)
    let y_max := max 0 (ys.foldl max e.1.2)
    let origin := (-x_min, -y_min)
    let pixels := (e :: rest).foldl
      (fun acc q => fun pt =>
        if pt = (q.1.1 + origin.1, q.1.2 + origin.2) then q.2 else acc pt)
      (fun _ => 0)
    (some { width := x_max - x_min + 1, height := y_max - y_min + 1, pixels := pixels },
      origin)

/-- util.py image_from_raw_data: build the canvas, then rasterize it. -/
def image_from_raw_data (tilemaps : List (Nat → Nat)) (dma : Nat → Nat → Nat) :
    Option PImage × (Int × Int) :=
  to_image (image_from_raw_data_canvas tilemaps dma)

/-- util.py single_convert_to_rgb: each 5 bit channel of the packed 555
color scales by 8, red from the low bits, blue from the high bits. -/
def single_convert_to_rgb (color : Nat) : Nat × Nat × Nat :=
  (8 * (color &&& 0b11111), 8 * ((color >>> 5) &&& 0b11111), 8 * ((color >>> 10) &&& 0b11111))

/-- util.py single_convert_to_555: each 8 bit channel is reduced modulo 0xFF
then divided by 8 and packed, blue in the high bits. -/
def single_convert_to_555 (color : Nat × Nat × Nat) : Nat :=
  (color.2.2 % 0xFF / 8) <<< 10 + (color.2.1 % 0xFF / 8) <<< 5 + color.1 % 0xFF / 8

/-! Concrete inputs used by counterexamples and witnesses. -/

/-- A headerless 0x80000 byte image whose word at 0x7FDC is 0xFFFF and word
at 0x7FDE is 0, so the two words sum to 0xFFFF, with every other byte zero
(in particular the makeup byte at 0x7FD5 is 0). -/
def bad_makeup_image : ByteBuf :=
  { size := 0x80000,
    data := fun a => if a = 0x7FDC then 0xFF else if a = 0x7FDD then 0xFF else 0 }

/-- As bad_makeup_image but with the recognized LoROM makeup byte 0x20 at
0x7FD5. -/
def lorom_image : ByteBuf :=
  { size := 0x80000,
    data := fun a =>
      if a = 0x7FDC then 0xFF else if a = 0x7FDD then 0xFF
      else if a = 0x7FD5 then 0x20 else 0 }

/-- A five byte tilemap entry with only byte 4 set to 0x02: position (0, 0),
small tile, no flips, and bit 1 of the attribute byte set. -/
def entry_pal_bit1 : Nat → Nat := fun k => if k = 4 then 2 else 0

/-- A tile table whose every tile has raw byte 0 equal to 1 and all other
bytes 0: the decoded tile has value 1 at (7, 0) and 0 elsewhere. -/
def dma_single_pixel : Nat → Nat → Nat := fun _ k => if k = 0 then 1 else 0

/-- A 4 megabit all zero LoROM state (contents length 0x80000). -/
def rom_4mbit : RomHandler :=
  { contents := { size := 0x80000, data := fun _ => 0 }, romSize := 0x80000,
    rtype := RomType.LOROM }

/-- An 8 megabit all zero LoROM state (contents length 0x100000). -/
def rom_8mbit : RomHandler :=
  { contents := { size := 0x100000, data := fun _ => 0 }, romSize := 0x100000,
    rtype := RomType.LOROM }

/-- A three byte all zero buffer. -/
def buf3 : ByteBuf := { size := 3, data := fun _ => 0 }

/-! Theorems -/

/-- C10: Rasterizing an empty canvas returns no image together with origin
offset (0, 0), rather than failing or producing a zero sized raster. -/
theorem to_image_empty : to_image [] = (none, (0, 0)) := rfl

/-- C5: read of width 3 never returns the little endian decode: every
width 3 read raises TypeError, because _read_single calls bytearray.append
with a one byte bytes object where an integer is required.  This holds for
every buffer and every address, in particular on a buffer holding bytes
1, 2, 3 at address 0 where the claimed decode would be 0x030201. -/
theorem read_width3_raises (b : ByteBuf) (addr : Nat) :
    read_single b addr 3 = .error RomErr.typeError := by
  simp [read_single]

/-- C3: under HiROM with rom_size 0x400000 the code maps SNES address
0xC00000 to PC address 0x30000 (the source computes (bank / 0x40) * 0x10000
with bank = 0xC0), not to 0x400000, even though its own
convert_to_snes_address sends PC 0x400000 to 0xC00000. -/
theorem hirom_c00000_pc_value :
    convert_to_snes_address RomType.HIROM 0x400000 0x400000 = .ok 0xC00000 ∧
    convert_to_pc_address RomType.HIROM 0x400000 0xC00000 = .ok 0x30000 ∧
    (0x30000 : Nat) ≠ 0x400000 := by
  refine ⟨by decide, by decide, by decide⟩

/-- C8: multi value write is not atomic: writing values [0x11, 0x22] with
encoding "19" to an all zero three byte buffer writes 0x11 at address 0,
then raises NotImplementedError on the unsupported width 9, leaving the
first value applied. -/
theorem write_multi_not_atomic :
    (write_multi buf3 0 [0x11, 0x22] ['1', '9']).2 = some RomErr.notImplemented ∧
    (write_multi buf3 0 [0x11, 0x22] ['1', '9']).1.data 0 = 0x11 ∧
    (write_multi buf3 0 [0x11, 0x22] ['1', '9']).1.data 1 = 0 ∧
    (write_multi buf3 0 [0x11, 0x22] ['1', '9']).1.data 2 = 0 ∧
    (write_multi buf3 0 [0x11, 0x22] ['1', '9']).1.size = 3 ∧
    buf3.data 0 = 0 := by
  refine ⟨by decide, by decide, by decide, by decide, by decide, by decide⟩

/-- C9: converting a packed 15 bit color to an RGB triplet and back is the
identity: each 5 bit channel scales to a multiple of 8 at most 248, which
the modulus 0xFF leaves unchanged, so dividing by 8 recovers the channel. -/
theorem color_555_roundtrip (c : Nat) (h : c < 0x8000) :
    single_convert_to_555 (single_convert_to_rgb c) = c := by
  simp only [single_convert_to_rgb, single_convert_to_555,
    Nat.shiftRight_eq_div_pow, Nat.shiftLeft_eq,
    show (31 : Nat) = 2 ^ 5 - 1 from rfl, Nat.and_pow_two_sub_one_eq_mod]
  norm_num
  have h1 : 8 * (c / 1024 % 32) % 255 = 8 * (c / 1024 % 32) := Nat.mod_eq_of_lt (by omega)
  have h2 : 8 * (c / 32 % 32) % 255 = 8 * (c / 32 % 32) := Nat.mod_eq_of_lt (by omega)
  have h3 : 8 * (c % 32) % 255 = 8 * (c % 32) := Nat.mod_eq_of_lt (by omega)
  rw [h1, h2, h3]
  have g1 : 8 * (c / 1024 % 32) / 8 = c / 1024 % 32 := by omega
  have g2 : 8 * (c / 32 % 32) / 8 = c / 32 % 32 := by omega
  have g3 : 8 * (c % 32) / 8 = c % 32 := by omega
  rw [g1, g2, g3]
  omega

/-- C9 witness: the round trip at the concrete color 0x1234. -/
theorem color_555_roundtrip_witness :
    (0x1234 : Nat) < 0x8000 ∧
    single_convert_to_555 (single_convert_to_rgb 0x1234) = 0x1234 :=
  ⟨by decide, color_555_roundtrip 0x1234 (by decide)⟩

/-- C1 counterexample: the round trip fails on the code as claimed for each
layout at a boundary and for HiROM everywhere below bank 0xC0: under HiROM
(rom_size 0x400000) PC 0 converts to SNES 0x800000 but converting back
raises; under LoROM (rom_size 0x400000) PC 0x400000 converts to SNES
0x1008000, outside the 24 bit space; under ExLoROM PC 0x200000 converts to
the negative SNES address -0x3F8000; under ExHiROM (rom_size 0x810000)
PC 0x808001 converts to SNES 0x408001 which maps back to 0x408001, not to
the original address. -/
theorem round_trip_counterexample :
    (convert_to_snes_address RomType.HIROM 0x400000 0 = .ok 0x800000 ∧
      round_trip RomType.HIROM 0x400000 0 = .error RomErr.assertion) ∧
    (convert_to_snes_address RomType.LOROM 0x400000 0x400000 = .ok 0x1008000 ∧
      round_trip RomType.LOROM 0x400000 0x400000 = .error RomErr.assertion) ∧
    (convert_to_snes_address RomType.EXLOROM 0x400000 0x200000 = .ok (-0x3F8000) ∧
      round_trip RomType.EXLOROM 0x400000 0x200000 = .error RomErr.assertion) ∧
    (convert_to_snes_address RomType.EXHIROM 0x810000 0x808001 = .ok 0x408001 ∧
      round_trip RomType.EXHIROM 0x810000 0x808001 = .ok 0x408001 ∧
      (0x408001 : Nat) ≠ 0x808001) := by
  refine ⟨⟨by decide, by decide⟩, ⟨by decide, by decide⟩, ⟨by decide, by decide⟩,
    by decide, by decide, by decide⟩

/-- C1 amended: the round trip convert_to_pc_address of
convert_to_snes_address is the identity on the regions where the code
supports it: all of LoROM below PC 0x400000, ExLoROM below PC 0x200000, and
ExHiROM below PC 0x800000 on its mapped addresses; HiROM is excluded (its
round trip fails outside PC 0x28000 to 0x2FFFF). -/
theorem round_trip_amended (s p : Nat) :
    (p ≤ s → p < 0x400000 → round_trip RomType.LOROM s p = .ok p) ∧
    (p ≤ s → p < 0x200000 → round_trip RomType.EXLOROM s p = .ok p) ∧
    (p ≤ s → p < 0x800000 → (p < 0x7E0000 ∨ p % 0x10000 > 0x8000) →
      round_trip RomType.EXHIROM s p = .ok p) := by
  refine ⟨fun hps hp => ?_, fun hps hp => ?_, fun hps hp hm => ?_⟩
  · have h1 : convert_to_snes_address RomType.LOROM s (p : Int) =
        .ok (((p / 0x8000 + 0x80) * 0x10000 + (p % 0x8000 + 0x8000) : Nat) : Int) := by
      unfold convert_to_snes_address
      rw [if_neg (by omega), Int.toNat_natCast]
      rfl
    have hnorm : lorom_norm_offset ((p / 0x8000 + 0x80) * 0x10000 + (p % 0x8000 + 0x8000)) =
        ((p / 0x8000 + 0x80) * 0x10000 + (p % 0x8000 + 0x8000)) % 0x10000 := by
      unfold lorom_norm_offset
      rw [if_neg (by omega)]
    have h2 : convert_to_pc_address RomType.LOROM s
        (((p / 0x8000 + 0x80) * 0x10000 + (p % 0x8000 + 0x8000) : Nat) : Int) = .ok p := by
      unfold convert_to_pc_address
      rw [if_neg (by push_cast; omega), Int.toNat_natCast]
      simp only [convert_to_pc_core]
      rw [hnorm, if_neg (by omega)]
      unfold check_rom_size
      rw [if_neg (by omega)]
      simp only [Except.ok.injEq]
      omega
    rw [round_trip, h1]
    exact h2
  · have h1 : convert_to_snes_address RomType.EXLOROM s (p : Int) =
        .ok (((p / 0x8000 + 0x80) * 0x10000 + (p % 0x8000 + 0x8000) : Nat) : Int) := by
      unfold convert_to_snes_address
      rw [if_neg (by omega), Int.toNat_natCast]
      simp only [convert_to_snes_core]
      rw [if_pos (by omega)]
    have hnorm : lorom_norm_offset ((p / 0x8000 + 0x80) * 0x10000 + (p % 0x8000 + 0x8000)) =
        ((p / 0x8000 + 0x80) * 0x10000 + (p % 0x8000 + 0x8000)) % 0x10000 := by
      unfold lorom_norm_offset
      rw [if_neg (by omega)]
    have h2 : convert_to_pc_address RomType.EXLOROM s
        (((p / 0x8000 + 0x80) * 0x10000 + (p % 0x8000 + 0x8000) : Nat) : Int) = .ok p := by
      unfold convert_to_pc_address
      rw [if_neg (by push_cast; omega), Int.toNat_natCast]
      simp only [convert_to_pc_core]
      rw [hnorm, if_pos (by omega)]
      unfold check_rom_size
      rw [if_neg (by omega)]
      simp only [Except.ok.injEq]
      omega
    rw [round_trip, h1]
    exact h2
  · rcases Nat.lt_or_ge p 0x400000 with hc | hc
    · have h1 : convert_to_snes_address RomType.EXHIROM s (p : Int) =
          .ok ((p + 0xC00000 : Nat) : Int) := by
        unfold convert_to_snes_address
        rw [if_neg (by omega), Int.toNat_natCast]
        simp only [convert_to_snes_core]
        rw [if_pos (by omega)]
        simp only [Except.ok.injEq]
        push_cast
        ring
      have h2 : convert_to_pc_address RomType.EXHIROM s ((p + 0xC00000 : Nat) : Int) = .ok p := by
        unfold convert_to_pc_address
        rw [if_neg (by push_cast; omega), Int.toNat_natCast]
        simp only [convert_to_pc_core]
        rw [if_pos (by omega)]
        unfold check_rom_size
        rw [if_neg (by omega)]
        simp only [Except.ok.injEq]
        omega
      rw [round_trip, h1]
      exact h2
    · rcases Nat.lt_or_ge p 0x7E0000 with hc2 | hc2
      · have h1 : convert_to_snes_address RomType.EXHIROM s (p : Int) = .ok ((p : Nat) : Int) := by
          unfold convert_to_snes_address
          rw [if_neg (by omega), Int.toNat_natCast]
          simp only [convert_to_snes_core]
          rw [if_neg (by omega), if_pos (by omega)]
        have h2 : convert_to_pc_address RomType.EXHIROM s ((p : Nat) : Int) = .ok p := by
          unfold convert_to_pc_address
          rw [if_neg (by omega), Int.toNat_natCast]
          simp only [convert_to_pc_core]
          rw [if_neg (by omega), if_pos (by omega)]
          unfold check_rom_size
          rw [if_neg (by omega)]
          simp only [Except.ok.injEq]
          omega
        rw [round_trip, h1]
        exact h2
      · have hm2 : p % 0x10000 > 0x8000 := by omega
        have h1 : convert_to_snes_address RomType.EXHIROM s (p : Int) =
            .ok ((p - 0x400000 : Nat) : Int) := by
          unfold convert_to_snes_address
          rw [if_neg (by omega), Int.toNat_natCast]
          simp only [convert_to_snes_core]
          rw [if_neg (by omega), if_neg (by omega), if_pos (by omega)]
          simp only [Except.ok.injEq]
          rw [Nat.cast_sub (by omega : (0x400000 : Nat) ≤ p)]
          ring
        have h2 : convert_to_pc_address RomType.EXHIROM s ((p - 0x400000 : Nat) : Int) = .ok p := by
          unfold convert_to_pc_address
          rw [if_neg (by omega), Int.toNat_natCast]
          simp only [convert_to_pc_core]
          rw [if_neg (by omega), if_neg (by omega), if_pos ?side]
          case side =>
            constructor
            · omega
            · omega
          unfold check_rom_size
          rw [if_neg (by omega)]
          simp only [Except.ok.injEq]
          omega
        rw [round_trip, h1]
        exact h2

/-- C1 witness: the amended round trip at concrete points of each layout. -/
theorem round_trip_amended_witness :
    round_trip RomType.LOROM 0x400000 0x123456 = .ok 0x123456 ∧
    round_trip RomType.EXLOROM 0x400000 0x123456 = .ok 0x123456 ∧
    round_trip RomType.EXHIROM 0x810000 0x654321 = .ok 0x654321 :=
  ⟨(round_trip_amended 0x400000 0x123456).1 (by decide) (by decide),
    (round_trip_amended 0x400000 0x123456).2.1 (by decide) (by decide),
    (round_trip_amended 0x810000 0x654321).2.2 (by decide) (by decide) (by decide)⟩

/-- C7 counterexample: a headerless 0x80000 byte image whose words at
0x7FDC and 0x7FDE sum to 0xFFFF, with makeup byte 0 at 0x7FD5: the
checksum test picks LoROM, but the makeup refinement raises
AssertionError, so construction does not succeed. -/
theorem rom_init_counterexample :
    bad_makeup_image.size = 0x80000 ∧
    read_single bad_makeup_image 0x7FDC 2 = .ok 0xFFFF ∧
    read_single bad_makeup_image 0x7FDE 2 = .ok 0 ∧
    (0xFFFF + 0 : Nat) = 0xFFFF ∧
    read_single bad_makeup_image 0x7FD5 1 = .ok 0 ∧
    rom_init bad_makeup_image = .error RomErr.assertion := by
  refine ⟨rfl, by decide, by decide, by decide, by decide, rfl⟩

/-- C7 amended: construction from a headerless 0x80000 byte image whose two
little endian words at 0x7FDC and 0x7FDE sum to 0xFFFF succeeds with layout
LoROM provided the makeup byte at 0x7FD5 is one of the recognized LoROM
codes 0x20 and 0x30 or the accepted enhancement marker 0x23 (the code 0x32
instead yields ExLoROM, and any other byte raises AssertionError). -/
theorem rom_init_lorom (f : ByteBuf) (w1 w2 m : Nat)
    (hsize : f.size = 0x80000)
    (h1 : read_single f 0x7FDE 2 = .ok w1)
    (h2 : read_single f 0x7FDC 2 = .ok w2)
    (hsum : w1 + w2 = 0xFFFF)
    (hm : read_single f 0x7FD5 1 = .ok m)
    (hmm : m = 0x20 ∨ m = 0x30 ∨ m = 0x23) :
    rom_init f = .ok (f, RomType.LOROM) := by
  have hd : detect_checksum_or_title f = .ok RomType.LOROM := by
    simp only [detect_checksum_or_title, h1, h2, hsum]
    rfl
  have hm2 : read_single f (0x7FC0 + 0x15) 1 = .ok m := hm
  have hr : refine_makeup f RomType.LOROM = .ok RomType.LOROM := by
    rcases hmm with h | h | h <;> subst h <;> simp [refine_makeup, hm2]
  have hdt : detect_type f = .ok RomType.LOROM := by
    unfold detect_type
    rw [hd]
    exact hr
  unfold rom_init
  rw [if_pos (by rw [hsize])]
  rw [hdt]

/-- C7 witness: the amended construction on a concrete image with makeup
byte 0x20. -/
theorem rom_init_lorom_witness :
    rom_init lorom_image = .ok (lorom_image, RomType.LOROM) :=
  rom_init_lorom lorom_image 0 0xFFFF 0x20 rfl (by decide) (by decide) (by decide)
    (by decide) (Or.inl rfl)

/-- In bounds slice assignment preserves the buffer length. -/
theorem spliceAt_size_of_le (b : ByteBuf) (addr : Nat) (bs : List Nat)
    (h : addr + bs.length ≤ b.size) : (spliceAt b addr bs).size = b.size := by
  simp only [spliceAt]
  omega

/-- In bounds slice assignment stores the new bytes at their positions. -/
theorem spliceAt_data_at (b : ByteBuf) (addr : Nat) (bs : List Nat) (i : Nat)
    (hb : addr + bs.length ≤ b.size) (hi : i < bs.length) :
    (spliceAt b addr bs).data (addr + i) = bs.getD i 0 := by
  simp only [spliceAt]
  rw [if_neg (by omega), if_pos (by omega)]
  congr 1
  omega

/-- Extension with zeros adds to the length. -/
theorem extendZeros_size (b : ByteBuf) (pad : Nat) :
    (extendZeros b pad).size = b.size + pad := rfl

/-- Extension with zeros preserves the bytes below the old length. -/
theorem extendZeros_data_lt (b : ByteBuf) (pad k : Nat) (h : k < b.size) :
    (extendZeros b pad).data k = b.data k := by
  simp only [extendZeros]
  rw [if_pos h]

/-- Extension with zeros puts zero at every position at or above the old
length. -/
theorem extendZeros_data_ge (b : ByteBuf) (pad k : Nat) (h : b.size ≤ k) :
    (extendZeros b pad).data k = 0 := by
  simp only [extendZeros]
  rw [if_neg (by omega)]

/-- C6: expand with a target that is a multiple of 4 in [4, 32] and larger
than the current size pads the contents with zeros to exactly
target * 0x20000 bytes and writes the size code byte
0x07 + bitlength(target - 1) at offset 0x17 of the internal header (PC
offset 0x7FD7 for LoROM and ExLoROM, 0xFFD7 for HiROM and ExHiROM, which
must lie inside the ROM); a target that is not a multiple of 4 in [4, 32]
raises NotImplementedError (the UnsupportedOperation error of the spec),
and a target not exceeding the current size raises AssertionError (the
StateConflict error of the spec). -/
theorem expand_spec (rom : RomHandler) (target : Nat) :
    ((4 ≤ target ∧ target ≤ 32 ∧ target % 4 = 0) →
      (rom.romSize < target * 0x20000 →
        rom.romSize = rom.contents.size →
        internal_header_base rom.rtype + 0x17 < rom.romSize →
        ∃ rom2, expand rom target = .ok rom2 ∧
          rom2.contents.size = target * 0x20000 ∧
          rom2.contents.data (internal_header_base rom.rtype + 0x17) =
            0x07 + bit_length (target - 1) ∧
          (∀ k, rom.romSize ≤ k → k < target * 0x20000 → rom2.contents.data k = 0)) ∧
      (target * 0x20000 ≤ rom.romSize → expand rom target = .error RomErr.assertion)) ∧
    (¬(4 ≤ target ∧ target ≤ 32 ∧ target % 4 = 0) →
      expand rom target = .error RomErr.notImplemented) := by
  constructor
  · intro hval
    constructor
    · intro hlt hsz hhdr
      have hcode : 0x07 + bit_length (target - 1) < 0x100 := by
        have h5 : Nat.log2 (target - 1) < 5 :=
          (Nat.log2_lt (by omega : target - 1 ≠ 0)).2 (by omega)
        unfold bit_length
        rw [if_neg (by omega)]
        omega
      have hw : write_single rom.contents (0x07 + bit_length (target - 1))
          (internal_header_base rom.rtype + 0x17) 1 =
          (spliceAt rom.contents (internal_header_base rom.rtype + 0x17)
            [0x07 + bit_length (target - 1)], none) := by
        unfold write_single
        rw [if_pos rfl, if_pos hcode]
      have hexp : expand rom target = .ok { rom with
          contents := extendZeros
            (spliceAt rom.contents (internal_header_base rom.rtype + 0x17)
              [0x07 + bit_length (target - 1)]) (target * 0x20000 - rom.romSize) } := by
        unfold expand
        rw [if_neg (by omega), if_neg (by omega), hw]
      have hb : internal_header_base rom.rtype + 0x17 +
          ([0x07 + bit_length (target - 1)] : List Nat).length ≤ rom.contents.size := by
        simp only [List.length_cons, List.length_nil]
        omega
      have hsplice : (spliceAt rom.contents (internal_header_base rom.rtype + 0x17)
          [0x07 + bit_length (target - 1)]).size = rom.contents.size :=
        spliceAt_size_of_le _ _ _ hb
      refine ⟨_, hexp, ?_, ?_, ?_⟩
      · show (extendZeros _ _).size = _
        rw [extendZeros_size, hsplice]
        omega
      · show (extendZeros _ _).data _ = _
        rw [extendZeros_data_lt _ _ _ (by rw [hsplice]; omega)]
        have hat := spliceAt_data_at rom.contents (internal_header_base rom.rtype + 0x17)
          [0x07 + bit_length (target - 1)] 0 hb (by simp)
        simpa using hat
      · intro k hk1 hk2
        show (extendZeros _ _).data _ = _
        rw [extendZeros_data_ge _ _ _ (by rw [hsplice]; omega)]
    · intro hle
      unfold expand
      rw [if_neg (by omega), if_pos (by omega)]
  · intro hval
    unfold expand
    rw [if_pos (by omega)]

/-- C6 witness: expanding the 4 megabit ROM to 8 megabits pads it to
0x100000 bytes with size code byte 0x0A at 0x7FD7, and expanding the 8
megabit ROM to a 4 megabit target fails with the state conflict error. -/
theorem expand_spec_witness :
    (∃ rom2, expand rom_4mbit 8 = .ok rom2 ∧
      rom2.contents.size = 0x100000 ∧
      rom2.contents.data 0x7FD7 = 0x07 + bit_length 7 ∧
      (∀ k, 0x80000 ≤ k → k < 0x100000 → rom2.contents.data k = 0)) ∧
    expand rom_8mbit 4 = .error RomErr.assertion :=
  ⟨((expand_spec rom_4mbit 8).1 (by decide)).1 (by decide) rfl (by decide),
    ((expand_spec rom_8mbit 4).1 (by decide)).2 (by decide)⟩

/-- A bit is at most 1. -/
theorem bitAt_le_one (x k : Nat) : bitAt x k ≤ 1 := by
  unfold bitAt
  omega

/-- Bits of zero are zero. -/
theorem bitAt_zero (k : Nat) : bitAt 0 k = 0 := by
  unfold bitAt
  simp

/-- The uint8 cast is bounded by 255. -/
theorem u8_le (x : Nat) : u8 x ≤ 255 := by
  unfold u8
  omega

/-- Bit 7 of a most significant bit first packed byte is its first bit. -/
theorem bitAt_weighted_7 (e0 e1 e2 e3 e4 e5 e6 e7 : Nat) (h0 : e0 ≤ 1) (h1 : e1 ≤ 1)
    (h2 : e2 ≤ 1) (h3 : e3 ≤ 1) (h4 : e4 ≤ 1) (h5 : e5 ≤ 1) (h6 : e6 ≤ 1) (h7 : e7 ≤ 1) :
    bitAt (e0 * 128 + e1 * 64 + e2 * 32 + e3 * 16 + e4 * 8 + e5 * 4 + e6 * 2 + e7 * 1) 7 = e0 := by
  unfold bitAt
  norm_num
  omega

/-- Bit 6 of a packed byte is its second bit. -/
theorem bitAt_weighted_6 (e0 e1 e2 e3 e4 e5 e6 e7 : Nat) (h0 : e0 ≤ 1) (h1 : e1 ≤ 1)
    (h2 : e2 ≤ 1) (h3 : e3 ≤ 1) (h4 : e4 ≤ 1) (h5 : e5 ≤ 1) (h6 : e6 ≤ 1) (h7 : e7 ≤ 1) :
    bitAt (e0 * 128 + e1 * 64 + e2 * 32 + e3 * 16 + e4 * 8 + e5 * 4 + e6 * 2 + e7 * 1) 6 = e1 := by
  unfold bitAt
  norm_num
  omega

/-- Bit 5 of a packed byte is its third bit. -/
theorem bitAt_weighted_5 (e0 e1 e2 e3 e4 e5 e6 e7 : Nat) (h0 : e0 ≤ 1) (h1 : e1 ≤ 1)
    (h2 : e2 ≤ 1) (h3 : e3 ≤ 1) (h4 : e4 ≤ 1) (h5 : e5 ≤ 1) (h6 : e6 ≤ 1) (h7 : e7 ≤ 1) :
    bitAt (e0 * 128 + e1 * 64 + e2 * 32 + e3 * 16 + e4 * 8 + e5 * 4 + e6 * 2 + e7 * 1) 5 = e2 := by
  unfold bitAt
  norm_num
  omega

/-- Bit 4 of a packed byte is its fourth bit. -/
theorem bitAt_weighted_4 (e0 e1 e2 e3 e4 e5 e6 e7 : Nat) (h0 : e0 ≤ 1) (h1 : e1 ≤ 1)
    (h2 : e2 ≤ 1) (h3 : e3 ≤ 1) (h4 : e4 ≤ 1) (h5 : e5 ≤ 1) (h6 : e6 ≤ 1) (h7 : e7 ≤ 1) :
    bitAt (e0 * 128 + e1 * 64 + e2 * 32 + e3 * 16 + e4 * 8 + e5 * 4 + e6 * 2 + e7 * 1) 4 = e3 := by
  unfold bitAt
  norm_num
  omega

/-- Bit 3 of a packed byte is its fifth bit. -/
theorem bitAt_weighted_3 (e0 e1 e2 e3 e4 e5 e6 e7 : Nat) (h0 : e0 ≤ 1) (h1 : e1 ≤ 1)
    (h2 : e2 ≤ 1) (h3 : e3 ≤ 1) (h4 : e4 ≤ 1) (h5 : e5 ≤ 1) (h6 : e6 ≤ 1) (h7 : e7 ≤ 1) :
    bitAt (e0 * 128 + e1 * 64 + e2 * 32 + e3 * 16 + e4 * 8 + e5 * 4 + e6 * 2 + e7 * 1) 3 = e4 := by
  unfold bitAt
  norm_num
  omega

/-- Bit 2 of a packed byte is its sixth bit. -/
theorem bitAt_weighted_2 (e0 e1 e2 e3 e4 e5 e6 e7 : Nat) (h0 : e0 ≤ 1) (h1 : e1 ≤ 1)
    (h2 : e2 ≤ 1) (h3 : e3 ≤ 1) (h4 : e4 ≤ 1) (h5 : e5 ≤ 1) (h6 : e6 ≤ 1) (h7 : e7 ≤ 1) :
    bitAt (e0 * 128 + e1 * 64 + e2 * 32 + e3 * 16 + e4 * 8 + e5 * 4 + e6 * 2 + e7 * 1) 2 = e5 := by
  unfold bitAt
  norm_num
  omega

/-- Bit 1 of a packed byte is its seventh bit. -/
theorem bitAt_weighted_1 (e0 e1 e2 e3 e4 e5 e6 e7 : Nat) (h0 : e0 ≤ 1) (h1 : e1 ≤ 1)
    (h2 : e2 ≤ 1) (h3 : e3 ≤ 1) (h4 : e4 ≤ 1) (h5 : e5 ≤ 1) (h6 : e6 ≤ 1) (h7 : e7 ≤ 1) :
    bitAt (e0 * 128 + e1 * 64 + e2 * 32 + e3 * 16 + e4 * 8 + e5 * 4 + e6 * 2 + e7 * 1) 1 = e6 := by
  unfold bitAt
  norm_num
  omega

/-- Bit 0 of a packed byte is its last bit. -/
theorem bitAt_weighted_0 (e0 e1 e2 e3 e4 e5 e6 e7 : Nat) (h0 : e0 ≤ 1) (h1 : e1 ≤ 1)
    (h2 : e2 ≤ 1) (h3 : e3 ≤ 1) (h4 : e4 ≤ 1) (h5 : e5 ≤ 1) (h6 : e6 ≤ 1) (h7 : e7 ≤ 1) :
    bitAt (e0 * 128 + e1 * 64 + e2 * 32 + e3 * 16 + e4 * 8 + e5 * 4 + e6 * 2 + e7 * 1) 0 = e7 := by
  unfold bitAt
  norm_num
  omega

/-- The work array of the decoder is byte sized. -/
theorem ctfb_tile_le (raw : Nat → Nat) (r c : Nat) : ctfb_tile raw r c ≤ 255 := by
  unfold ctfb_tile u8
  split_ifs <;> omega

/-- The packed rows of the decoder are byte sized. -/
theorem ctfb_fixed_bits_le (raw : Nat → Nat) (r b : Nat) : ctfb_fixed_bits raw r b ≤ 255 := by
  unfold ctfb_fixed_bits bitAt
  omega

/-- The work array of the encoder is byte sized. -/
theorem citb_tile_le (g : Nat → Nat → Nat) (a k : Nat) : citb_tile g a k ≤ 255 := by
  unfold citb_tile bitAt
  omega

/-- A byte is recovered from its bits most significant first (stated in the
shape produced by the codec definitions). -/
theorem byte_recon (x : Nat) (h : x < 256) :
    bitAt x (7 - 0) * 128 + bitAt x (7 - 1) * 64 + bitAt x (7 - 2) * 32 +
    bitAt x (7 - 3) * 16 + bitAt x (7 - 4) * 8 + bitAt x (7 - 5) * 4 +
    bitAt x (7 - 6) * 2 + bitAt x (7 - 7) * 1 = x := by
  unfold bitAt
  norm_num
  omega

/-- A 4 bit value is recovered from its low four bits. -/
theorem nibble_recon (x : Nat) (h : x < 16) :
    bitAt x (7 - 4) * 8 + bitAt x (7 - 5) * 4 + bitAt x (7 - 6) * 2 + bitAt x (7 - 7) * 1 = x := by
  unfold bitAt
  norm_num
  omega

/-- Extracting bit 7 - k from entry (r, b) of the packed rows of the decoder
yields bit 7 - b of work array entry (r, k): unpackbits then packbits
transposes the bit and byte positions. -/
theorem bit_of_fixed (raw : Nat → Nat) (r b k : Nat) (hk : k < 8) :
    bitAt (ctfb_fixed_bits raw r b) (7 - k) = bitAt (ctfb_tile raw r k) (7 - b) := by
  unfold ctfb_fixed_bits
  interval_cases k
  · exact bitAt_weighted_7 _ _ _ _ _ _ _ _ (bitAt_le_one _ _) (bitAt_le_one _ _)
      (bitAt_le_one _ _) (bitAt_le_one _ _) (bitAt_le_one _ _) (bitAt_le_one _ _)
      (bitAt_le_one _ _) (bitAt_le_one _ _)
  · exact bitAt_weighted_6 _ _ _ _ _ _ _ _ (bitAt_le_one _ _) (bitAt_le_one _ _)
      (bitAt_le_one _ _) (bitAt_le_one _ _) (bitAt_le_one _ _) (bitAt_le_one _ _)
      (bitAt_le_one _ _) (bitAt_le_one _ _)
  · exact bitAt_weighted_5 _ _ _ _ _ _ _ _ (bitAt_le_one _ _) (bitAt_le_one _ _)
      (bitAt_le_one _ _) (bitAt_le_one _ _) (bitAt_le_one _ _) (bitAt_le_one _ _)
      (bitAt_le_one _ _) (bitAt_le_one _ _)
  · exact bitAt_weighted_4 _ _ _ _ _ _ _ _ (bitAt_le_one _ _) (bitAt_le_one _ _)
      (bitAt_le_one _ _) (bitAt_le_one _ _) (bitAt_le_one _ _) (bitAt_le_one _ _)
      (bitAt_le_one _ _) (bitAt_le_one _ _)
  · exact bitAt_weighted_3 _ _ _ _ _ _ _ _ (bitAt_le_one _ _) (bitAt_le_one _ _)
      (bitAt_le_one _ _) (bitAt_le_one _ _) (bitAt_le_one _ _) (bitAt_le_one _ _)
      (bitAt_le_one _ _) (bitAt_le_one _ _)
  · exact bitAt_weighted_2 _ _ _ _ _ _ _ _ (bitAt_le_one _ _) (bitAt_le_one _ _)
      (bitAt_le_one _ _) (bitAt_le_one _ _) (bitAt_le_one _ _) (bitAt_le_one _ _)
      (bitAt_le_one _ _) (bitAt_le_one _ _)
  · exact bitAt_weighted_1 _ _ _ _ _ _ _ _ (bitAt_le_one _ _) (bitAt_le_one _ _)
      (bitAt_le_one _ _) (bitAt_le_one _ _) (bitAt_le_one _ _) (bitAt_le_one _ _)
      (bitAt_le_one _ _) (bitAt_le_one _ _)
  · exact bitAt_weighted_0 _ _ _ _ _ _ _ _ (bitAt_le_one _ _) (bitAt_le_one _ _)
      (bitAt_le_one _ _) (bitAt_le_one _ _) (bitAt_le_one _ _) (bitAt_le_one _ _)
      (bitAt_le_one _ _) (bitAt_le_one _ _)

/-- Extracting bit 7 - i from entry (a, k) of the encoder work array yields
bit 7 - k of the uint8 cast of grid entry (i, 7 - a). -/
theorem bit_of_citb (g : Nat → Nat → Nat) (a k i : Nat) (hi : i < 8) :
    bitAt (citb_tile g a k) (7 - i) = bitAt (u8 (g i (7 - a))) (7 - k) := by
  unfold citb_tile
  interval_cases i
  · exact bitAt_weighted_7 _ _ _ _ _ _ _ _ (bitAt_le_one _ _) (bitAt_le_one _ _)
      (bitAt_le_one _ _) (bitAt_le_one _ _) (bitAt_le_one _ _) (bitAt_le_one _ _)
      (bitAt_le_one _ _) (bitAt_le_one _ _)
  · exact bitAt_weighted_6 _ _ _ _ _ _ _ _ (bitAt_le_one _ _) (bitAt_le_one _ _)
      (bitAt_le_one _ _) (bitAt_le_one _ _) (bitAt_le_one _ _) (bitAt_le_one _ _)
      (bitAt_le_one _ _) (bitAt_le_one _ _)
  · exact bitAt_weighted_5 _ _ _ _ _ _ _ _ (bitAt_le_one _ _) (bitAt_le_one _ _)
      (bitAt_le_one _ _) (bitAt_le_one _ _) (bitAt_le_one _ _) (bitAt_le_one _ _)
      (bitAt_le_one _ _) (bitAt_le_one _ _)
  · exact bitAt_weighted_4 _ _ _ _ _ _ _ _ (bitAt_le_one _ _) (bitAt_le_one _ _)
      (bitAt_le_one _ _) (bitAt_le_one _ _) (bitAt_le_one _ _) (bitAt_le_one _ _)
      (bitAt_le_one _ _) (bitAt_le_one _ _)
  · exact bitAt_weighted_3 _ _ _ _ _ _ _ _ (bitAt_le_one _ _) (bitAt_le_one _ _)
      (bitAt_le_one _ _) (bitAt_le_one _ _) (bitAt_le_one _ _) (bitAt_le_one _ _)
      (bitAt_le_one _ _) (bitAt_le_one _ _)
  · exact bitAt_weighted_2 _ _ _ _ _ _ _ _ (bitAt_le_one _ _) (bitAt_le_one _ _)
      (bitAt_le_one _ _) (bitAt_le_one _ _) (bitAt_le_one _ _) (bitAt_le_one _ _)
      (bitAt_le_one _ _) (bitAt_le_one _ _)
  · exact bitAt_weighted_1 _ _ _ _ _ _ _ _ (bitAt_le_one _ _) (bitAt_le_one _ _)
      (bitAt_le_one _ _) (bitAt_le_one _ _) (bitAt_le_one _ _) (bitAt_le_one _ _)
      (bitAt_le_one _ _) (bitAt_le_one _ _)
  · exact bitAt_weighted_0 _ _ _ _ _ _ _ _ (bitAt_le_one _ _) (bitAt_le_one _ _)
      (bitAt_le_one _ _) (bitAt_le_one _ _) (bitAt_le_one _ _) (bitAt_le_one _ _)
      (bitAt_le_one _ _) (bitAt_le_one _ _)

/-- Byte 2m of the encoder output is work array entry (7 - m, 7). -/
theorem citb_byte_low_even (g : Nat → Nat → Nat) (m : Nat) (hm : m < 8) :
    convert_indexed_tile_to_bitplanes g (2 * m) = citb_tile g (7 - 2 * m / 2) 7 := by
  unfold convert_indexed_tile_to_bitplanes
  rw [if_pos (by omega), if_pos (by omega)]

/-- Byte 2m + 1 of the encoder output is work array entry (7 - m, 6). -/
theorem citb_byte_low_odd (g : Nat → Nat → Nat) (m : Nat) (hm : m < 8) :
    convert_indexed_tile_to_bitplanes g (2 * m + 1) = citb_tile g (7 - (2 * m + 1) / 2) 6 := by
  unfold convert_indexed_tile_to_bitplanes
  rw [if_pos (by omega), if_neg (by omega)]

/-- Byte 16 + 2m of the encoder output is work array entry (7 - m, 5). -/
theorem citb_byte_high_even (g : Nat → Nat → Nat) (m : Nat) (hm : m < 8) :
    convert_indexed_tile_to_bitplanes g (16 + 2 * m) =
      citb_tile g (7 - (16 + 2 * m - 16) / 2) 5 := by
  unfold convert_indexed_tile_to_bitplanes
  rw [if_neg (by omega), if_pos (by omega)]

/-- Byte 17 + 2m of the encoder output is work array entry (7 - m, 4). -/
theorem citb_byte_high_odd (g : Nat → Nat → Nat) (m : Nat) (hm : m < 8) :
    convert_indexed_tile_to_bitplanes g (17 + 2 * m) =
      citb_tile g (7 - (17 + 2 * m - 16) / 2) 4 := by
  unfold convert_indexed_tile_to_bitplanes
  rw [if_neg (by omega), if_neg (by omega)]

/-- Encoding a decoded tile recovers the decoder work array: the encoder
work array of the decoded grid equals the decoder work array. -/
theorem citb_tile_of_decode (raw : Nat → Nat) (a k : Nat) (ha : a < 8) (hk : k < 8) :
    citb_tile (convert_tile_from_bitplanes raw) a k = ctfb_tile raw a k := by
  unfold citb_tile
  have h7a : 7 - (7 - a) = a := by omega
  simp only [convert_tile_from_bitplanes, h7a]
  have hu : ∀ b : Nat, u8 (ctfb_fixed_bits raw a b) = ctfb_fixed_bits raw a b := fun b =>
    Nat.mod_eq_of_lt (by have := ctfb_fixed_bits_le raw a b; omega)
  simp only [u8] at hu
  simp only [u8, hu]
  have hb := fun b => bit_of_fixed raw a b k hk
  simp only [hb]
  have hrec := byte_recon (ctfb_tile raw a k) (by have := ctfb_tile_le raw a k; omega)
  omega

/-- C2: the tile codec round trips in both directions: encoding the decoded
tile reproduces every byte of a 32 byte raw tile, and decoding the encoded
grid reproduces every entry of an 8 by 8 grid of 4 bit indices. -/
theorem tile_codec_roundtrip :
    (∀ raw : Nat → Nat, (∀ j, j < 32 → raw j < 256) → ∀ n, n < 32 →
      convert_indexed_tile_to_bitplanes (convert_tile_from_bitplanes raw) n = raw n) ∧
    (∀ g : Nat → Nat → Nat, (∀ a, a < 8 → ∀ b, b < 8 → g a b < 16) →
      ∀ i, i < 8 → ∀ j, j < 8 →
        convert_tile_from_bitplanes (convert_indexed_tile_to_bitplanes g) i j = g i j) := by
  constructor
  · intro raw h n hn
    rcases Nat.lt_or_ge n 16 with h16 | h16
    · rcases Nat.even_or_odd n with ⟨m, hm⟩ | ⟨m, hm⟩
      · rw [show n = 2 * m from by omega, citb_byte_low_even _ m (by omega),
          show 2 * m / 2 = m from by omega,
          citb_tile_of_decode raw (7 - m) 7 (by omega) (by omega)]
        unfold ctfb_tile
        rw [if_neg (by omega), if_neg (by omega), if_neg (by omega), if_pos rfl,
          show 14 - 2 * (7 - m) = 2 * m from by omega]
        simp only [u8]
        exact Nat.mod_eq_of_lt (h _ (by omega))
      · rw [show n = 2 * m + 1 from by omega, citb_byte_low_odd _ m (by omega),
          show (2 * m + 1) / 2 = m from by omega,
          citb_tile_of_decode raw (7 - m) 6 (by omega) (by omega)]
        unfold ctfb_tile
        rw [if_neg (by omega), if_neg (by omega), if_pos rfl,
          show 15 - 2 * (7 - m) = 2 * m + 1 from by omega]
        simp only [u8]
        exact Nat.mod_eq_of_lt (h _ (by omega))
    · rcases Nat.even_or_odd n with ⟨m, hm⟩ | ⟨m, hm⟩
      · rw [show n = 16 + 2 * (m - 8) from by omega, citb_byte_high_even _ (m - 8) (by omega),
          show (16 + 2 * (m - 8) - 16) / 2 = m - 8 from by omega,
          citb_tile_of_decode raw (7 - (m - 8)) 5 (by omega) (by omega)]
        unfold ctfb_tile
        rw [if_neg (by omega), if_pos rfl,
          show 30 - 2 * (7 - (m - 8)) = 16 + 2 * (m - 8) from by omega]
        simp only [u8]
        exact Nat.mod_eq_of_lt (h _ (by omega))
      · rw [show n = 17 + 2 * (m - 8) from by omega, citb_byte_high_odd _ (m - 8) (by omega),
          show (17 + 2 * (m - 8) - 16) / 2 = m - 8 from by omega,
          citb_tile_of_decode raw (7 - (m - 8)) 4 (by omega) (by omega)]
        unfold ctfb_tile
        rw [if_pos rfl, show 31 - 2 * (7 - (m - 8)) = 17 + 2 * (m - 8) from by omega]
        simp only [u8]
        exact Nat.mod_eq_of_lt (h _ (by omega))
  · intro g hg i hi j hj
    have h7j : 7 - (7 - j) = j := by omega
    have hc7 : ctfb_tile (convert_indexed_tile_to_bitplanes g) (7 - j) 7 =
        citb_tile g (7 - j) 7 := by
      show u8 (convert_indexed_tile_to_bitplanes g (14 - 2 * (7 - j))) = _
      rw [show 14 - 2 * (7 - j) = 2 * j from by omega, citb_byte_low_even g j hj,
        show 2 * j / 2 = j from by omega]
      simp only [u8]
      exact Nat.mod_eq_of_lt (by have := citb_tile_le g (7 - j) 7; omega)
    have hc6 : ctfb_tile (convert_indexed_tile_to_bitplanes g) (7 - j) 6 =
        citb_tile g (7 - j) 6 := by
      show u8 (convert_indexed_tile_to_bitplanes g (15 - 2 * (7 - j))) = _
      rw [show 15 - 2 * (7 - j) = 2 * j + 1 from by omega, citb_byte_low_odd g j hj,
        show (2 * j + 1) / 2 = j from by omega]
      simp only [u8]
      exact Nat.mod_eq_of_lt (by have := citb_tile_le g (7 - j) 6; omega)
    have hc5 : ctfb_tile (convert_indexed_tile_to_bitplanes g) (7 - j) 5 =
        citb_tile g (7 - j) 5 := by
      show u8 (convert_indexed_tile_to_bitplanes g (30 - 2 * (7 - j))) = _
      rw [show 30 - 2 * (7 - j) = 16 + 2 * j from by omega, citb_byte_high_even g j hj,
        show (16 + 2 * j - 16) / 2 = j from by omega]
      simp only [u8]
      exact Nat.mod_eq_of_lt (by have := citb_tile_le g (7 - j) 5; omega)
    have hc4 : ctfb_tile (convert_indexed_tile_to_bitplanes g) (7 - j) 4 =
        citb_tile g (7 - j) 4 := by
      show u8 (convert_indexed_tile_to_bitplanes g (31 - 2 * (7 - j))) = _
      rw [show 31 - 2 * (7 - j) = 17 + 2 * j from by omega, citb_byte_high_odd g j hj,
        show (17 + 2 * j - 16) / 2 = j from by omega]
      simp only [u8]
      exact Nat.mod_eq_of_lt (by have := citb_tile_le g (7 - j) 4; omega)
    have hz0 : ctfb_tile (convert_indexed_tile_to_bitplanes g) (7 - j) 0 = 0 := rfl
    have hz1 : ctfb_tile (convert_indexed_tile_to_bitplanes g) (7 - j) 1 = 0 := rfl
    have hz2 : ctfb_tile (convert_indexed_tile_to_bitplanes g) (7 - j) 2 = 0 := rfl
    have hz3 : ctfb_tile (convert_indexed_tile_to_bitplanes g) (7 - j) 3 = 0 := rfl
    unfold convert_tile_from_bitplanes ctfb_fixed_bits
    rw [hz0, hz1, hz2, hz3, hc4, hc5, hc6, hc7]
    have hb4 := bit_of_citb g (7 - j) 4 i hi
    have hb5 := bit_of_citb g (7 - j) 5 i hi
    have hb6 := bit_of_citb g (7 - j) 6 i hi
    have hb7 := bit_of_citb g (7 - j) 7 i hi
    rw [hb4, hb5, hb6, hb7]
    simp only [h7j, bitAt_zero]
    have hu : u8 (g i j) = g i j := Nat.mod_eq_of_lt (by have := hg i hi j hj; omega)
    simp only [u8] at hu
    simp only [u8, hu]
    have hrec := nibble_recon (g i j) (hg i hi j hj)
    omega

/-- C2 witness: both round trip directions at concrete inputs (a tile whose
byte j is j * 37 mod 256, checked at byte 5, and a grid whose entry (a, b)
is (a + 3b) mod 16, checked at entry (2, 3)). -/
theorem tile_codec_roundtrip_witness :
    ((∀ j, j < 32 → (fun k : Nat => k * 37 % 256) j < 256) ∧
      convert_indexed_tile_to_bitplanes
        (convert_tile_from_bitplanes (fun k => k * 37 % 256)) 5 =
        (fun k : Nat => k * 37 % 256) 5) ∧
    ((∀ a, a < 8 → ∀ b, b < 8 → (fun x y : Nat => (x + 3 * y) % 16) a b < 16) ∧
      convert_tile_from_bitplanes
        (convert_indexed_tile_to_bitplanes (fun x y => (x + 3 * y) % 16)) 2 3 =
        (fun x y : Nat => (x + 3 * y) % 16) 2 3) :=
  ⟨⟨by decide, tile_codec_roundtrip.1 _ (by decide) 5 (by decide)⟩,
    ⟨by decide, tile_codec_roundtrip.2 _ (by decide) 2 (by decide) 3 (by decide)⟩⟩

theorem range_eight : List.range 8 = [0, 1, 2, 3, 4, 5, 6, 7] := rfl

theorem dictGet_nil (p : Int × Int) : dictGet [] p = none := rfl

theorem dictGet_dictWrite (c : Canvas) (k : Int × Int) (v : Nat) (p : Int × Int) :
    dictGet (dictWrite c k v) p = if p = k then some v else dictGet c p := by
  induction c with
  | nil =>
    show dictGet [(k, v)] p = if p = k then some v else dictGet [] p
    unfold dictGet
    by_cases h : p = k
    · rw [if_pos h.symm, if_pos h]
    · rw [if_neg (fun hh => h hh.symm), if_neg h]
      rfl
  | cons hd tl ih =>
    obtain ⟨k0, v0⟩ := hd
    by_cases h1 : k0 = k
    · show dictGet (if k0 = k then (k0, v) :: tl else (k0, v0) :: dictWrite tl k v) p = _
      rw [if_pos h1]
      show (if k0 = p then some v else dictGet tl p) = _
      by_cases h2 : k0 = p
      · rw [if_pos h2, if_pos (h2.symm.trans h1)]
      · rw [if_neg h2, if_neg (fun hp : p = k => h2 (h1.trans hp.symm))]
        show _ = if k0 = p then some v0 else dictGet tl p
        rw [if_neg h2]
    · show dictGet (if k0 = k then (k0, v) :: tl else (k0, v0) :: dictWrite tl k v) p = _
      rw [if_neg h1]
      show (if k0 = p then some v0 else dictGet (dictWrite tl k v) p) = _
      by_cases h2 : k0 = p
      · rw [if_pos h2, if_neg (fun hp : p = k => h1 (h2.trans hp))]
        show _ = if k0 = p then some v0 else dictGet tl p
        rw [if_pos h2]
      · rw [if_neg h2, ih]
        by_cases h3 : p = k
        · rw [if_pos h3, if_pos h3]
        · rw [if_neg h3, if_neg h3]
          show _ = if k0 = p then some v0 else dictGet tl p
          rw [if_neg h2]

theorem dictGet_ite_write (b : Prop) [Decidable b] (c : Canvas) (k : Int × Int) (v : Nat)
    (p : Int × Int) :
    dictGet (if b then dictWrite c k v else c) p =
      if b ∧ p = k then some v else dictGet c p := by
  by_cases hb : b
  · rw [if_pos hb, dictGet_dictWrite]
    by_cases hp : p = k
    · rw [if_pos hp, if_pos ⟨hb, hp⟩]
    · rw [if_neg hp, if_neg (fun hh => hp hh.2)]
  · rw [if_neg hb, if_neg (fun hh => hb hh.1)]

theorem dictGet_draw_row_ne (palofs : Nat) (tile : Nat → Nat → Nat) (nx ny : Int) (i : Nat)
    (c : Canvas) (p : Int × Int)
    (h : ∀ j : Nat, j < 8 → p ≠ (nx + (i : Int), ny + (j : Int))) :
    dictGet (draw_row palofs tile nx ny i c) p = dictGet c p := by
  have h0 := h 0 (by norm_num)
  have h1 := h 1 (by norm_num)
  have h2 := h 2 (by norm_num)
  have h3 := h 3 (by norm_num)
  have h4 := h 4 (by norm_num)
  have h5 := h 5 (by norm_num)
  have h6 := h 6 (by norm_num)
  have h7 := h 7 (by norm_num)
  simp only [draw_row, range_eight, List.foldl_cons, List.foldl_nil, dictGet_ite_write]
  rw [if_neg (fun hh => h7 hh.2), if_neg (fun hh => h6 hh.2), if_neg (fun hh => h5 hh.2),
    if_neg (fun hh => h4 hh.2), if_neg (fun hh => h3 hh.2), if_neg (fun hh => h2 hh.2),
    if_neg (fun hh => h1 hh.2), if_neg (fun hh => h0 hh.2)]

theorem dictGet_draw_row_at (palofs : Nat) (tile : Nat → Nat → Nat) (nx ny : Int) (i : Nat)
    (c : Canvas) (j : Nat) (hj : j < 8) :
    dictGet (draw_row palofs tile nx ny i c) (nx + (i : Int), ny + (j : Int)) =
      if tile i j ≠ 0 then some (palofs + tile i j)
      else dictGet c (nx + (i : Int), ny + (j : Int)) := by
  have hne : ∀ j2 j3 : Nat, j2 ≠ j3 →
      ((nx + (i : Int), ny + (j2 : Int)) : Int × Int) ≠ (nx + (i : Int), ny + (j3 : Int)) := by
    intro j2 j3 hne12 heq
    rw [Prod.mk.injEq] at heq
    obtain ⟨hx, hy⟩ := heq
    omega
  interval_cases j
  · simp only [draw_row, range_eight, List.foldl_cons, List.foldl_nil, dictGet_ite_write]
    rw [if_neg (fun hh => hne 0 7 (by norm_num) hh.2),
      if_neg (fun hh => hne 0 6 (by norm_num) hh.2),
      if_neg (fun hh => hne 0 5 (by norm_num) hh.2),
      if_neg (fun hh => hne 0 4 (by norm_num) hh.2),
      if_neg (fun hh => hne 0 3 (by norm_num) hh.2),
      if_neg (fun hh => hne 0 2 (by norm_num) hh.2),
      if_neg (fun hh => hne 0 1 (by norm_num) hh.2)]
    by_cases ht : tile i 0 ≠ 0
    · rw [if_pos (show tile i 0 ≠ 0 ∧ True from ⟨ht, trivial⟩), if_pos ht]
    · rw [if_neg (show ¬(tile i 0 ≠ 0 ∧ True) from fun hh => ht hh.1),
      if_neg ht]
  · simp only [draw_row, range_eight, List.foldl_cons, List.foldl_nil, dictGet_ite_write]
    rw [if_neg (fun hh => hne 1 7 (by norm_num) hh.2),
      if_neg (fun hh => hne 1 6 (by norm_num) hh.2),
      if_neg (fun hh => hne 1 5 (by norm_num) hh.2),
      if_neg (fun hh => hne 1 4 (by norm_num) hh.2),
      if_neg (fun hh => hne 1 3 (by norm_num) hh.2),
      if_neg (fun hh => hne 1 2 (by norm_num) hh.2)]
    by_cases ht : tile i 1 ≠ 0
    · rw [if_pos (show tile i 1 ≠ 0 ∧ True from ⟨ht, trivial⟩), if_pos ht]
    · rw [if_neg (show ¬(tile i 1 ≠ 0 ∧ True) from fun hh => ht hh.1),
      if_neg ht,
      if_neg (fun hh => hne 1 0 (by norm_num) hh.2)]
  · simp only [draw_row, range_eight, List.foldl_cons, List.foldl_nil, dictGet_ite_write]
    rw [if_neg (fun hh => hne 2 7 (by norm_num) hh.2),
      if_neg (fun hh => hne 2 6 (by norm_num) hh.2),
      if_neg (fun hh => hne 2 5 (by norm_num) hh.2),
      if_neg (fun hh => hne 2 4 (by norm_num) hh.2),
      if_neg (fun hh => hne 2 3 (by norm_num) hh.2)]
    by_cases ht : tile i 2 ≠ 0
    · rw [if_pos (show tile i 2 ≠ 0 ∧ True from ⟨ht, trivial⟩), if_pos ht]
    · rw [if_neg (show ¬(tile i 2 ≠ 0 ∧ True) from fun hh => ht hh.1),
      if_neg ht,
      if_neg (fun hh => hne 2 1 (by norm_num) hh.2),
      if_neg (fun hh => hne 2 0 (by norm_num) hh.2)]
  · simp only [draw_row, range_eight, List.foldl_cons, List.foldl_nil, dictGet_ite_write]
    rw [if_neg (fun hh => hne 3 7 (by norm_num) hh.2),
      if_neg (fun hh => hne 3 6 (by norm_num) hh.2),
      if_neg (fun hh => hne 3 5 (by norm_num) hh.2),
      if_neg (fun hh => hne 3 4 (by norm_num) hh.2)]
    by_cases ht : tile i 3 ≠ 0
    · rw [if_pos (show tile i 3 ≠ 0 ∧ True from ⟨ht, trivial⟩), if_pos ht]
    · rw [if_neg (show ¬(tile i 3 ≠ 0 ∧ True) from fun hh => ht hh.1),
      if_neg ht,
      if_neg (fun hh => hne 3 2 (by norm_num) hh.2),
      if_neg (fun hh => hne 3 1 (by norm_num) hh.2),
      if_neg (fun hh => hne 3 0 (by norm_num) hh.2)]
  · simp only [draw_row, range_eight, List.foldl_cons, List.foldl_nil, dictGet_ite_write]
    rw [if_neg (fun hh => hne 4 7 (by norm_num) hh.2),
      if_neg (fun hh => hne 4 6 (by norm_num) hh.2),
      if_neg (fun hh => hne 4 5 (by norm_num) hh.2)]
    by_cases ht : tile i 4 ≠ 0
    · rw [if_pos (show tile i 4 ≠ 0 ∧ True from ⟨ht, trivial⟩), if_pos ht]
    · rw [if_neg (show ¬(tile i 4 ≠ 0 ∧ True) from fun hh => ht hh.1),
      if_neg ht,
      if_neg (fun hh => hne 4 3 (by norm_num) hh.2),
      if_neg (fun hh => hne 4 2 (by norm_num) hh.2),
      if_neg (fun hh => hne 4 1 (by norm_num) hh.2),
      if_neg (fun hh => hne 4 0 (by norm_num) hh.2)]
  · simp only [draw_row, range_eight, List.foldl_cons, List.foldl_nil, dictGet_ite_write]
    rw [if_neg (fun hh => hne 5 7 (by norm_num) hh.2),
      if_neg (fun hh => hne 5 6 (by norm_num) hh.2)]
    by_cases ht : tile i 5 ≠ 0
    · rw [if_pos (show tile i 5 ≠ 0 ∧ True from ⟨ht, trivial⟩), if_pos ht]
    · rw [if_neg (show ¬(tile i 5 ≠ 0 ∧ True) from fun hh => ht hh.1),
      if_neg ht,
      if_neg (fun hh => hne 5 4 (by norm_num) hh.2),
      if_neg (fun hh => hne 5 3 (by norm_num) hh.2),
      if_neg (fun hh => hne 5 2 (by norm_num) hh.2),
      if_neg (fun hh => hne 5 1 (by norm_num) hh.2),
      if_neg (fun hh => hne 5 0 (by norm_num) hh.2)]
  · simp only [draw_row, range_eight, List.foldl_cons, List.foldl_nil, dictGet_ite_write]
    rw [if_neg (fun hh => hne 6 7 (by norm_num) hh.2)]
    by_cases ht : tile i 6 ≠ 0
    · rw [if_pos (show tile i 6 ≠ 0 ∧ True from ⟨ht, trivial⟩), if_pos ht]
    · rw [if_neg (show ¬(tile i 6 ≠ 0 ∧ True) from fun hh => ht hh.1),
      if_neg ht,
      if_neg (fun hh => hne 6 5 (by norm_num) hh.2),
      if_neg (fun hh => hne 6 4 (by norm_num) hh.2),
      if_neg (fun hh => hne 6 3 (by norm_num) hh.2),
      if_neg (fun hh => hne 6 2 (by norm_num) hh.2),
      if_neg (fun hh => hne 6 1 (by norm_num) hh.2),
      if_neg (fun hh => hne 6 0 (by norm_num) hh.2)]
  · simp only [draw_row, range_eight, List.foldl_cons, List.foldl_nil, dictGet_ite_write]
    by_cases ht : tile i 7 ≠ 0
    · rw [if_pos (show tile i 7 ≠ 0 ∧ True from ⟨ht, trivial⟩), if_pos ht]
    · rw [if_neg (show ¬(tile i 7 ≠ 0 ∧ True) from fun hh => ht hh.1),
      if_neg ht,
      if_neg (fun hh => hne 7 6 (by norm_num) hh.2),
      if_neg (fun hh => hne 7 5 (by norm_num) hh.2),
      if_neg (fun hh => hne 7 4 (by norm_num) hh.2),
      if_neg (fun hh => hne 7 3 (by norm_num) hh.2),
      if_neg (fun hh => hne 7 2 (by norm_num) hh.2),
      if_neg (fun hh => hne 7 1 (by norm_num) hh.2),
      if_neg (fun hh => hne 7 0 (by norm_num) hh.2)]

theorem dictGet_draw_ne (palofs : Nat) (tile : Nat → Nat → Nat) (nx ny : Int) (c : Canvas)
    (p : Int × Int)
    (h : ∀ i2 j2 : Nat, i2 < 8 → j2 < 8 → p ≠ (nx + (i2 : Int), ny + (j2 : Int))) :
    dictGet (draw_tile_to_canvas palofs tile nx ny c) p = dictGet c p := by
  simp only [draw_tile_to_canvas, range_eight, List.foldl_cons, List.foldl_nil]
  rw [dictGet_draw_row_ne _ _ _ _ 7 _ _ (fun j2 hj2 => h 7 j2 (by norm_num) hj2),
    dictGet_draw_row_ne _ _ _ _ 6 _ _ (fun j2 hj2 => h 6 j2 (by norm_num) hj2),
    dictGet_draw_row_ne _ _ _ _ 5 _ _ (fun j2 hj2 => h 5 j2 (by norm_num) hj2),
    dictGet_draw_row_ne _ _ _ _ 4 _ _ (fun j2 hj2 => h 4 j2 (by norm_num) hj2),
    dictGet_draw_row_ne _ _ _ _ 3 _ _ (fun j2 hj2 => h 3 j2 (by norm_num) hj2),
    dictGet_draw_row_ne _ _ _ _ 2 _ _ (fun j2 hj2 => h 2 j2 (by norm_num) hj2),
    dictGet_draw_row_ne _ _ _ _ 1 _ _ (fun j2 hj2 => h 1 j2 (by norm_num) hj2),
    dictGet_draw_row_ne _ _ _ _ 0 _ _ (fun j2 hj2 => h 0 j2 (by norm_num) hj2)]

theorem dictGet_draw_at (palofs : Nat) (tile : Nat → Nat → Nat) (nx ny : Int) (c : Canvas)
    (i j : Nat) (hi : i < 8) (hj : j < 8) :
    dictGet (draw_tile_to_canvas palofs tile nx ny c) (nx + (i : Int), ny + (j : Int)) =
      if tile i j ≠ 0 then some (palofs + tile i j)
      else dictGet c (nx + (i : Int), ny + (j : Int)) := by
  have hrow : ∀ i2 : Nat, i2 ≠ i → ∀ c2 : Canvas,
      dictGet (draw_row palofs tile nx ny i2 c2) (nx + (i : Int), ny + (j : Int)) =
        dictGet c2 (nx + (i : Int), ny + (j : Int)) := by
    intro i2 hi2 c2
    apply dictGet_draw_row_ne
    intro j2 hj2 heq
    rw [Prod.mk.injEq] at heq
    obtain ⟨hx, hy⟩ := heq
    have hcast : i = i2 := by omega
    exact hi2 hcast.symm
  simp only [draw_tile_to_canvas, range_eight, List.foldl_cons, List.foldl_nil]
  interval_cases i
  · rw [hrow 7 (by norm_num),
      hrow 6 (by norm_num),
      hrow 5 (by norm_num),
      hrow 4 (by norm_num),
      hrow 3 (by norm_num),
      hrow 2 (by norm_num),
      hrow 1 (by norm_num),
      dictGet_draw_row_at palofs tile nx ny 0 _ j hj]
  · rw [hrow 7 (by norm_num),
      hrow 6 (by norm_num),
      hrow 5 (by norm_num),
      hrow 4 (by norm_num),
      hrow 3 (by norm_num),
      hrow 2 (by norm_num),
      dictGet_draw_row_at palofs tile nx ny 1 _ j hj,
      hrow 0 (by norm_num)]
  · rw [hrow 7 (by norm_num),
      hrow 6 (by norm_num),
      hrow 5 (by norm_num),
      hrow 4 (by norm_num),
      hrow 3 (by norm_num),
      dictGet_draw_row_at palofs tile nx ny 2 _ j hj,
      hrow 1 (by norm_num),
      hrow 0 (by norm_num)]
  · rw [hrow 7 (by norm_num),
      hrow 6 (by norm_num),
      hrow 5 (by norm_num),
      hrow 4 (by norm_num),
      dictGet_draw_row_at palofs tile nx ny 3 _ j hj,
      hrow 2 (by norm_num),
      hrow 1 (by norm_num),
      hrow 0 (by norm_num)]
  · rw [hrow 7 (by norm_num),
      hrow 6 (by norm_num),
      hrow 5 (by norm_num),
      dictGet_draw_row_at palofs tile nx ny 4 _ j hj,
      hrow 3 (by norm_num),
      hrow 2 (by norm_num),
      hrow 1 (by norm_num),
      hrow 0 (by norm_num)]
  · rw [hrow 7 (by norm_num),
      hrow 6 (by norm_num),
      dictGet_draw_row_at palofs tile nx ny 5 _ j hj,
      hrow 4 (by norm_num),
      hrow 3 (by norm_num),
      hrow 2 (by norm_num),
      hrow 1 (by norm_num),
      hrow 0 (by norm_num)]
  · rw [hrow 7 (by norm_num),
      dictGet_draw_row_at palofs tile nx ny 6 _ j hj,
      hrow 5 (by norm_num),
      hrow 4 (by norm_num),
      hrow 3 (by norm_num),
      hrow 2 (by norm_num),
      hrow 1 (by norm_num),
      hrow 0 (by norm_num)]
  · rw [dictGet_draw_row_at palofs tile nx ny 7 _ j hj,
      hrow 6 (by norm_num),
      hrow 5 (by norm_num),
      hrow 4 (by norm_num),
      hrow 3 (by norm_num),
      hrow 2 (by norm_num),
      hrow 1 (by norm_num),
      hrow 0 (by norm_num)]

/-- The palette offset computed by the source, (e << 3) & 0b1110000, equals
16 times the 3 bit field at bits 1 to 3 of e. -/
theorem palette_offset_eq_bits (e : Nat) :
    (e <<< 3) &&& 0b1110000 = ((e >>> 1) &&& 0b111) * 16 := by
  rw [show ((e >>> 1) &&& 0b111) * 16 = ((e >>> 1) &&& 0b111) <<< 4 by rw [Nat.shiftLeft_eq]]
  apply Nat.eq_of_testBit_eq
  intro k
  simp only [Nat.testBit_and, Nat.testBit_shiftLeft, Nat.testBit_shiftRight]
  rcases k with _|_|_|_|_|_|_|k <;>
    simp [show Nat.testBit 112 0 = false from rfl, show Nat.testBit 112 1 = false from rfl,
      show Nat.testBit 112 2 = false from rfl, show Nat.testBit 112 3 = false from rfl,
      show Nat.testBit 112 4 = true from rfl, show Nat.testBit 112 5 = true from rfl,
      show Nat.testBit 112 6 = true from rfl, show Nat.testBit 7 0 = true from rfl,
      show Nat.testBit 7 1 = true from rfl, show Nat.testBit 7 2 = true from rfl]
  have h112 : Nat.testBit 112 (k+1+1+1+1+1+1+1) = false :=
    Nat.testBit_lt_two_pow (Nat.lt_of_lt_of_le (show (112:Nat) < 2 ^ 7 by norm_num)
      (Nat.pow_le_pow_right (by norm_num) (by omega)))
  have h7 : Nat.testBit 7 (k+3) = false :=
    Nat.testBit_lt_two_pow (Nat.lt_of_lt_of_le (show (7:Nat) < 2 ^ 3 by norm_num)
      (Nat.pow_le_pow_right (by norm_num) (by omega)))
  simp [h112, h7]

/-- C4 counterexample: for the entry whose attribute byte is 0x02 (bit 1
set) and a tile table whose decoded tile has value 1 at pixel (7, 0), the
compositor writes 17 = 1 * 16 + 1 into the canvas (the source selects
bits 1 to 3 of the attribute byte as the palette), while the claim, with
palette_index the field at bits 2 to 4 of 0x02, which is 0, predicts the
value 0 * 16 + 1 = 1. -/
theorem compositor_palette_counterexample :
    dictGet (image_from_raw_data_canvas [entry_pal_bit1] dma_single_pixel)
        (tilemap_x entry_pal_bit1 + ((7 : Nat) : Int),
          tilemap_y entry_pal_bit1 + ((0 : Nat) : Int)) = some 17 ∧
    tilemap_tile dma_single_pixel entry_pal_bit1 0 7 0 = 1 ∧
    ((entry_pal_bit1 4 >>> 2) &&& 0b111) * 16 + 1 = 1 ∧
    (17 : Nat) ≠ 1 := by
  refine ⟨by decide, by decide, by decide, by decide⟩
/-- C4 amended: for every five byte tilemap entry and tile table, the
compositor writes, for each decoded (flip adjusted) pixel with nonzero
value v, the indexed value palette_index * 16 + v into the canvas, where
palette_index is the 3 bit field at bits 1 to 3 of entry byte 4 (the source
computes (entry[4] << 3) & 0b1110000, which selects bits 1 to 3, not bits
2 to 4 as claimed); pixels that decode to 0 are never written.  Stated for
one entry: at each flip adjusted coordinate of the (small) tile or of each
of the four quadrants of a big tile, the canvas holds exactly
palette_index * 16 + v when the flipped pixel value v is nonzero, and
nothing when it is 0. -/
theorem compositor_writes (entry : Nat → Nat) (dma : Nat → Nat → Nat) (i j : Nat)
    (hi : i < 8) (hj : j < 8) :
    (entry 1 &&& 0xC2 ≠ 0xC2 →
      dictGet (image_from_raw_data_canvas [entry] dma)
          (tilemap_x entry + (i : Int), tilemap_y entry + (j : Int)) =
        (if tilemap_tile dma entry 0 i j ≠ 0 then
          some (((entry 4 >>> 1) &&& 0b111) * 16 + tilemap_tile dma entry 0 i j)
        else none)) ∧
    (entry 1 &&& 0xC2 = 0xC2 →
      (dictGet (image_from_raw_data_canvas [entry] dma)
          (tilemap_x entry + (if get_bit (entry 4) 6 then 8 else 0) + (i : Int),
            tilemap_y entry + (if get_bit (entry 4) 7 then 8 else 0) + (j : Int)) =
        (if tilemap_tile dma entry 0 i j ≠ 0 then
          some (((entry 4 >>> 1) &&& 0b111) * 16 + tilemap_tile dma entry 0 i j)
        else none)) ∧
      (dictGet (image_from_raw_data_canvas [entry] dma)
          (tilemap_x entry + (if get_bit (entry 4) 6 then 0 else 8) + (i : Int),
            tilemap_y entry + (if get_bit (entry 4) 7 then 8 else 0) + (j : Int)) =
        (if tilemap_tile dma entry 0x01 i j ≠ 0 then
          some (((entry 4 >>> 1) &&& 0b111) * 16 + tilemap_tile dma entry 0x01 i j)
        else none)) ∧
      (dictGet (image_from_raw_data_canvas [entry] dma)
          (tilemap_x entry + (if get_bit (entry 4) 6 then 8 else 0) + (i : Int),
            tilemap_y entry + (if get_bit (entry 4) 7 then 0 else 8) + (j : Int)) =
        (if tilemap_tile dma entry 0x10 i j ≠ 0 then
          some (((entry 4 >>> 1) &&& 0b111) * 16 + tilemap_tile dma entry 0x10 i j)
        else none)) ∧
      (dictGet (image_from_raw_data_canvas [entry] dma)
          (tilemap_x entry + (if get_bit (entry 4) 6 then 0 else 8) + (i : Int),
            tilemap_y entry + (if get_bit (entry 4) 7 then 0 else 8) + (j : Int)) =
        (if tilemap_tile dma entry 0x11 i j ≠ 0 then
          some (((entry 4 >>> 1) &&& 0b111) * 16 + tilemap_tile dma entry 0x11 i j)
        else none))) := by
  have hc : image_from_raw_data_canvas [entry] dma = process_tilemap dma [] entry := rfl
  constructor
  · intro hsm
    rw [hc]
    unfold process_tilemap
    rw [if_neg hsm]
    rw [dictGet_draw_at _ _ _ _ _ i j hi hj, palette_offset_eq_bits, dictGet_nil]
  · intro hbig
    rw [hc]
    unfold process_tilemap
    rw [if_pos hbig]
    refine ⟨?_, ?_, ?_, ?_⟩
    · rw [dictGet_draw_ne _ _ _ _ _ _ (by
          intro i2 j2 hi2 hj2 heq
          rw [Prod.mk.injEq] at heq
          obtain ⟨hx, hy⟩ := heq
          split_ifs at hx hy <;> omega),
        dictGet_draw_ne _ _ _ _ _ _ (by
          intro i2 j2 hi2 hj2 heq
          rw [Prod.mk.injEq] at heq
          obtain ⟨hx, hy⟩ := heq
          split_ifs at hx hy <;> omega),
        dictGet_draw_ne _ _ _ _ _ _ (by
          intro i2 j2 hi2 hj2 heq
          rw [Prod.mk.injEq] at heq
          obtain ⟨hx, hy⟩ := heq
          split_ifs at hx hy <;> omega),
        dictGet_draw_at _ _ _ _ _ i j hi hj,
        palette_offset_eq_bits,
        dictGet_nil]
    · rw [dictGet_draw_ne _ _ _ _ _ _ (by
          intro i2 j2 hi2 hj2 heq
          rw [Prod.mk.injEq] at heq
          obtain ⟨hx, hy⟩ := heq
          split_ifs at hx hy <;> omega),
        dictGet_draw_ne _ _ _ _ _ _ (by
          intro i2 j2 hi2 hj2 heq
          rw [Prod.mk.injEq] at heq
          obtain ⟨hx, hy⟩ := heq
          split_ifs at hx hy <;> omega),
        dictGet_draw_at _ _ _ _ _ i j hi hj,
        dictGet_draw_ne _ _ _ _ _ _ (by
          intro i2 j2 hi2 hj2 heq
          rw [Prod.mk.injEq] at heq
          obtain ⟨hx, hy⟩ := heq
          split_ifs at hx hy <;> omega),
        palette_offset_eq_bits,
        dictGet_nil]
    · rw [dictGet_draw_ne _ _ _ _ _ _ (by
          intro i2 j2 hi2 hj2 heq
          rw [Prod.mk.injEq] at heq
          obtain ⟨hx, hy⟩ := heq
          split_ifs at hx hy <;> omega),
        dictGet_draw_at _ _ _ _ _ i j hi hj,
        dictGet_draw_ne _ _ _ _ _ _ (by
          intro i2 j2 hi2 hj2 heq
          rw [Prod.mk.injEq] at heq
          obtain ⟨hx, hy⟩ := heq
          split_ifs at hx hy <;> omega),
        dictGet_draw_ne _ _ _ _ _ _ (by
          intro i2 j2 hi2 hj2 heq
          rw [Prod.mk.injEq] at heq
          obtain ⟨hx, hy⟩ := heq
          split_ifs at hx hy <;> omega),
        palette_offset_eq_bits,
        dictGet_nil]
    · rw [dictGet_draw_at _ _ _ _ _ i j hi hj,
        dictGet_draw_ne _ _ _ _ _ _ (by
          intro i2 j2 hi2 hj2 heq
          rw [Prod.mk.injEq] at heq
          obtain ⟨hx, hy⟩ := heq
          split_ifs at hx hy <;> omega),
        dictGet_draw_ne _ _ _ _ _ _ (by
          intro i2 j2 hi2 hj2 heq
          rw [Prod.mk.injEq] at heq
          obtain ⟨hx, hy⟩ := heq
          split_ifs at hx hy <;> omega),
        dictGet_draw_ne _ _ _ _ _ _ (by
          intro i2 j2 hi2 hj2 heq
          rw [Prod.mk.injEq] at heq
          obtain ⟨hx, hy⟩ := heq
          split_ifs at hx hy <;> omega),
        palette_offset_eq_bits,
        dictGet_nil]

/-- C4 witness: the amended statement at the concrete small tile entry with
attribute byte 0x02 and the one pixel tile table, at pixel (7, 0). -/
theorem compositor_writes_witness :
    entry_pal_bit1 1 &&& 0xC2 ≠ 0xC2 ∧
    dictGet (image_from_raw_data_canvas [entry_pal_bit1] dma_single_pixel)
        (tilemap_x entry_pal_bit1 + ((7 : Nat) : Int),
          tilemap_y entry_pal_bit1 + ((0 : Nat) : Int)) =
      (if tilemap_tile dma_single_pixel entry_pal_bit1 0 7 0 ≠ 0 then
        some (((entry_pal_bit1 4 >>> 1) &&& 0b111) * 16 +
          tilemap_tile dma_single_pixel entry_pal_bit1 0 7 0)
      else none) :=
  ⟨by decide, (compositor_writes entry_pal_bit1 dma_single_pixel 7 0 (by decide)
    (by decide)).1 (by decide)⟩
